import Mathlib

/-!
# Verification of the lecturenote-ai transcript pipeline

This file gives a shallow embedding, over `List Char`, of the core text
pipeline of the repository: the text normalizer (`server/utils/textNormalizer.js`),
the LLM gateway retry logic (`server/ai/aiProvider.js`), the correction
sub-pipeline (`server/utils/llmCorrector.js`), the segmenter / slice extractor /
chapter merge of the server orchestration file, and the database recovery rule
(`server/database.cjs`).  JavaScript strings are modelled as `List Char`
(code points); machine numbers are `Nat`, with JavaScript `NaN` propagation
modelled by `Option Nat` where a computation can produce `NaN`.
-/

/-! ## Character classes (JavaScript regex semantics) -/

/-- JavaScript `\s` (the whitespace class used by `trim`, `\s`, `[^\S\n]`). -/
def jsWs (c : Char) : Bool :=
  c.toNat = 9 || c.toNat = 10 || c.toNat = 11 || c.toNat = 12 || c.toNat = 13 ||
  c.toNat = 32 || c.toNat = 0xa0 || c.toNat = 0x1680 ||
  (0x2000 ≤ c.toNat && c.toNat ≤ 0x200a) || c.toNat = 0x2028 || c.toNat = 0x2029 ||
  c.toNat = 0x202f || c.toNat = 0x205f || c.toNat = 0x3000 || c.toNat = 0xfeff

/-- The control characters removed by the normalizer:
`[\x00-\x08\x0B\x0C\x0E-\x1F]` (tab, LF and CR excluded). -/
def jsControl (c : Char) : Bool :=
  c.toNat ≤ 0x08 || c.toNat = 0x0b || c.toNat = 0x0c ||
  (0x0e ≤ c.toNat && c.toNat ≤ 0x1f)

/-- JavaScript `\d`. -/
def isDig (c : Char) : Bool :=
  48 ≤ c.toNat && c.toNat ≤ 57

/-- Horizontal whitespace `[^\S\n]`: whitespace other than a newline. -/
def hwsChar (c : Char) : Bool :=
  jsWs c && !(c.toNat = 10)

/-! ## List-of-characters utilities shared by the embedded modules -/

/-- `listStartsWith pat l` : `pat` is a prefix of `l`. -/
def listStartsWith : List Char → List Char → Bool
  | [], _ => true
  | _ :: _, [] => false
  | p :: ps, c :: cs => p == c && listStartsWith ps cs

/-- JavaScript `String.prototype.includes`: `pat` occurs as a contiguous
substring of `l` (the empty pattern always occurs). -/
def containsSub (l pat : List Char) : Bool :=
  match l with
  | [] => listStartsWith pat []
  | _ :: rest => listStartsWith pat l || containsSub rest pat

/-- JavaScript `String.prototype.replace` with a plain-string pattern:
replace the first occurrence of `pat` by `rep` (an empty `pat` matches at
position 0). -/
def replaceFirst (pat rep : List Char) : List Char → List Char
  | [] => if listStartsWith pat [] then rep else []
  | c :: rest =>
    if listStartsWith pat (c :: rest) then rep ++ (c :: rest).drop pat.length
    else c :: replaceFirst pat rep rest

/-- JavaScript `String.prototype.split` on a single separator character. -/
def splitOnChar (sep : Char) : List Char → List (List Char)
  | [] => [[]]
  | c :: rest =>
    if c = sep then [] :: splitOnChar sep rest
    else
      match splitOnChar sep rest with
      | [] => [[c]]
      | l :: ls => (c :: l) :: ls

/-- JavaScript `trimStart` (drop leading `\s`). -/
def trimStart (l : List Char) : List Char := l.dropWhile (fun c => jsWs c)

/-- JavaScript `trimEnd` (drop trailing `\s`). -/
def trimEnd (l : List Char) : List Char :=
  (l.reverse.dropWhile (fun c => jsWs c)).reverse

/-- JavaScript `String.prototype.trim`. -/
def trimJS (l : List Char) : List Char := trimStart (trimEnd l)

namespace TextNormalizer

/-! ## `server/utils/textNormalizer.js` -/

/-- `normalizeLineEndings`, first pass: `text.replace(/\r\n/g, '\n')`. -/
def crlfToLf : List Char → List Char
  | [] => []
  | '\r' :: '\n' :: rest => '\n' :: crlfToLf rest
  | c :: rest => c :: crlfToLf rest

/-- `normalizeLineEndings`, second pass: `.replace(/\r/g, '\n')`. -/
def crToLf (l : List Char) : List Char :=
  l.map (fun c => if c = '\r' then '\n' else c)

/-- `normalizeLineEndings`: CRLF and CR become LF. -/
def normalizeLineEndings (l : List Char) : List Char := crToLf (crlfToLf l)

/-- `removeBOM`: strip a byte-order mark at position 0 (text part only;
the change counters of the source are not needed by any claim and are
omitted throughout this embedding). -/
def removeBOM : List Char → List Char
  | '﻿' :: rest => rest
  | l => l

/-- Models JavaScript `String.prototype.normalize('NFC')`.
Unicode canonical composition is the identity on every string whose
characters have no canonical decomposition and form no composable pair;
all characters used in this development are such, except for the pair
U+0061 'a' followed by the combining acute U+0301, which NFC composes
into U+00E1.  The model composes exactly that pair and is the identity
otherwise, which agrees with real NFC on the character set appearing in
this file. -/
def nfcJS : List Char → List Char
  | [] => []
  | 'a' :: '́' :: rest => 'á' :: nfcJS rest
  | c :: rest => c :: nfcJS rest

/-- `removeControlCharacters`: drop `[\x00-\x08\x0B\x0C\x0E-\x1F]`. -/
def removeControlCharacters (l : List Char) : List Char :=
  l.filter (fun c => !jsControl c)

/-- `handleReplacementCharacter` with the default empty replacement:
drop every U+FFFD. -/
def handleReplacementCharacter (l : List Char) : List Char :=
  l.filter (fun c => !(c = '�'))

/-- Scanner for `normalizeWhitespace`: replace every maximal run of
horizontal whitespace (`[^\S\n]+`) by a single space.  The flag records
whether the scanner is inside a run already emitted. -/
def nwsAux : Bool → List Char → List Char
  | _, [] => []
  | inRun, c :: rest =>
    if hwsChar c then
      if inRun then nwsAux true rest else ' ' :: nwsAux true rest
    else c :: nwsAux false rest

/-- `normalizeWhitespace`: `text.replace(/[^\S\n]+/g, ' ')`. -/
def normalizeWhitespace (l : List Char) : List Char := nwsAux false l

/-- `trimLines`: split on `\n`, `trim` each line, join with `\n`. -/
def trimLines (l : List Char) : List Char :=
  List.intercalate ['\n'] ((splitOnChar '\n' l).map trimJS)

/-- Scanner for `collapseBlankLines`: a maximal run of `k` newlines is
emitted as `min k m` newlines where `m = maxBlankLines + 1`
(`text.replace(new RegExp(backslash-n repeated m+1 or more), m newlines)`:
runs of at most `m` newlines are untouched, longer runs are cut to `m`,
which is `min k m` in both cases). -/
def cbAux (m : Nat) (k : Nat) : List Char → List Char
  | [] => List.replicate (min k m) '\n'
  | c :: rest =>
    if c = '\n' then cbAux m (k + 1) rest
    else List.replicate (min k m) '\n' ++ c :: cbAux m 0 rest

/-- `collapseBlankLines text maxBlankLines`. -/
def collapseBlankLines (maxBlankLines : Nat) (l : List Char) : List Char :=
  cbAux (maxBlankLines + 1) 0 l

/-! ### The timestamp regex `\[?\d{1,2}:\d{2}(?::\d{2})?\]?`

`tryTs l` attempts a match at the start of `l`, with the greedy/backtracking
behaviour of the JavaScript engine, and returns
`(whole match, captured time digits, rest)`.  The same pattern (with the
bracket parts non-capturing) is the server's `timePattern`, whose capture
group is the time digits, so one matcher serves both files. -/

/-- Match `\d{1,2}:` greedily (two digits preferred; on failure after two
digits the engine backtracks to one digit, which then requires the second
character to be `:` — impossible since it is a digit, hence the shape below). -/
def matchHourColon (l : List Char) : Option (List Char × List Char) :=
  match l with
  | [] => none
  | d1 :: rest1 =>
    if !isDig d1 then none
    else
      match rest1 with
      | [] => none
      | d2 :: rest2 =>
        if isDig d2 then
          match rest2 with
          | [] => none
          | c3 :: rest3 => if c3 = ':' then some ([d1, d2, ':'], rest3) else none
        else if d2 = ':' then some ([d1, ':'], rest2)
        else none

/-- Match `\d{2}`. -/
def matchMM (l : List Char) : Option (List Char × List Char) :=
  match l with
  | m1 :: m2 :: r => if isDig m1 && isDig m2 then some ([m1, m2], r) else none
  | _ => none

/-- Match `\[?` (greedy, cannot force backtracking since no digit follows a
consumed bracket when the rest fails anyway). -/
def matchOptLBracket (l : List Char) : List Char × List Char :=
  match l with
  | [] => ([], l)
  | c :: r => if c = '[' then ([c], r) else ([], l)

/-- Match `(?::\d{2})?` greedily. -/
def matchOptSecs (l : List Char) : List Char × List Char :=
  match l with
  | c :: s1 :: s2 :: r =>
    if c = ':' && isDig s1 && isDig s2 then ([c, s1, s2], r) else ([], l)
  | _ => ([], l)

/-- Match `\]?`. -/
def matchOptRBracket (l : List Char) : List Char × List Char :=
  match l with
  | [] => ([], l)
  | c :: r => if c = ']' then ([c], r) else ([], l)

/-- Attempt the full timestamp pattern at the start of `l`. -/
def tryTs (l : List Char) : Option (List Char × List Char × List Char) :=
  let b1 := matchOptLBracket l
  match matchHourColon b1.2 with
  | none => none
  | some (hc, l2) =>
    match matchMM l2 with
    | none => none
    | some (mm, l3) =>
      let ss := matchOptSecs l3
      let b2 := matchOptRBracket ss.2
      some (b1.1 ++ hc ++ mm ++ ss.1 ++ b2.1, (hc ++ mm ++ ss.1, b2.2))

/-- The numbered placeholder inserted by `protectTimestamps`. -/
def placeholderFor (n : Nat) : List Char :=
  ("__TIMESTAMP_").data ++ (Nat.repr n).data ++ ("__").data

/-- Global replacement scan of `protectTimestamps`: walk the text left to
right; at a match emit the next placeholder, record `(placeholder, match)`
in order, and continue after the match; otherwise emit the character.
The scan consumes at least one character per step, so fuel equal to the
length of the text suffices; the fuel-exhausted branch is unreachable for
such fuel. -/
def protectAux : Nat → Nat → List Char → List Char × List (List Char × List Char)
  | _, _, [] => ([], [])
  | 0, _, l => (l, [])
  | fuel + 1, ctr, c :: rest =>
    match tryTs (c :: rest) with
    | some (m, _, rest') =>
      let ph := placeholderFor ctr
      let (t, ms) := protectAux fuel (ctr + 1) rest'
      (ph ++ t, (ph, m) :: ms)
    | none =>
      let (t, ms) := protectAux fuel ctr rest
      (c :: t, ms)

/-- `protectTimestamps`: returns the text with placeholders and the
insertion-ordered placeholder map. -/
def protectTimestamps (l : List Char) : List Char × List (List Char × List Char) :=
  protectAux l.length 0 l

/-- `restoreTimestamps`: for each map entry in insertion order, replace the
first occurrence of the placeholder by the original match. -/
def restoreTimestamps (l : List Char) (m : List (List Char × List Char)) : List Char :=
  m.foldl (fun acc p => replaceFirst p.1 p.2 acc) l

/-- `NormalizerConfig` with the `DEFAULT_CONFIG` values as defaults. -/
structure NormalizerConfig where
  preserveTimestamps : Bool := true
  normalizeWhitespace : Bool := true
  removeControlChars : Bool := true
  removeBOM : Bool := true
  handleReplacementChar : Bool := true
  trimLines : Bool := true
  collapseBlankLines : Bool := true
  maxBlankLines : Nat := 2

/-- `DEFAULT_CONFIG` of the source. -/
def DEFAULT_CONFIG : NormalizerConfig := {}

/-- `normalizeText(text, config).text`: the ten pipeline steps of the source
in their fixed order (the guard for `null`/non-string input reduces to the
empty-text early return in this string model; the `changeLog` counters are
not modelled since no claim mentions them). -/
def normalizeText (cfg : NormalizerConfig) (text : List Char) : List Char :=
  if text = [] then []
  else
    let r1 := normalizeLineEndings text
    let r2 := if cfg.removeBOM then removeBOM r1 else r1
    let pm := if cfg.preserveTimestamps then protectTimestamps r2
              else (r2, [])
    let r4 := nfcJS pm.1
    let r5 := if cfg.removeControlChars then removeControlCharacters r4 else r4
    let r6 := if cfg.handleReplacementChar then handleReplacementCharacter r5 else r5
    let r7 := if cfg.normalizeWhitespace then normalizeWhitespace r6 else r6
    let r8 := if cfg.trimLines then trimLines r7 else r7
    let r9 := if cfg.collapseBlankLines then collapseBlankLines cfg.maxBlankLines r8 else r8
    let r10 := if cfg.preserveTimestamps then restoreTimestamps r9 pm.2 else r9
    trimJS r10

end TextNormalizer

namespace ServerApp

/-! ## The server orchestration file (segmenter, slice extractor, merge) -/

/-- JavaScript `Number()` restricted to the digit strings produced by the
time regexes and chapter time fields: the value for an all-digit string
(`Number('') = 0`), `none` (NaN) otherwise. -/
def jsNumber (s : List Char) : Option Nat :=
  if s.all (fun c => isDig c) then
    some (s.foldl (fun a c => a * 10 + (c.toNat - 48)) 0)
  else none

/-- `parseTime(timeStr)`: split on `:`, convert the parts with `Number`,
combine as `H*3600+M*60+S` (3 parts) or `M*60+S` (2 parts), else `0`;
`none` models the `NaN` produced by non-numeric parts, and every
comparison against `NaN` below is false, as in JavaScript. -/
def parseTime (timeStr : List Char) : Option Nat :=
  if timeStr.isEmpty then some 0
  else
    match (splitOnChar ':' timeStr).map jsNumber with
    | [some h, some m, some s] => some (h * 3600 + m * 60 + s)
    | [_, _, _] => none
    | [some m, some s] => some (m * 60 + s)
    | [_, _] => none
    | _ => some 0

/-- `x <= v` where `v` may be NaN (`false` on NaN). -/
def jsLeOpt (x : Nat) (v : Option Nat) : Bool :=
  match v with
  | some n => x ≤ n
  | none => false

/-- `x >= v` where `v` may be NaN (`false` on NaN). -/
def jsGeOpt (x : Nat) (v : Option Nat) : Bool :=
  match v with
  | some n => n ≤ x
  | none => false

/-- `v > 0` where `v` may be NaN (`false` on NaN). -/
def jsGtZero (v : Option Nat) : Bool :=
  match v with
  | some n => 0 < n
  | none => false

/-- `line.match(timePattern)`: first position in the line where the
timestamp pattern matches; the parsed seconds of capture group 1.
The captured digits always parse, so the `parseTime` fallback value is
irrelevant. -/
def findLineTime : List Char → Option Nat
  | [] => none
  | c :: rest =>
    match TextNormalizer.tryTs (c :: rest) with
    | some (_, g1, _) => some ((parseTime g1).getD 0)
    | none => findLineTime rest

/-- Per-line timestamps with their line offsets: `(lineIndex, seconds)`. -/
def lineTimestamps (lines : List (List Char)) : List (Nat × Nat) :=
  lines.enum.filterMap (fun p => (findLineTime p.2).map (fun t => (p.1, t)))

/-- The timestamps the segmenter collects from a transcript. -/
def transcriptTimestamps (transcript : List Char) : List (Nat × Nat) :=
  lineTimestamps (splitOnChar '\n' transcript)

/-- `extractSlice(text, startStr, endStr)` of the orchestration file. -/
def extractSlice (text startStr endStr : List Char) : List Char :=
  let startSec := parseTime startStr
  let endSec := parseTime endStr
  let lines := splitOnChar '\n' text
  let tss := lineTimestamps lines
  if tss.isEmpty then text
  else
    let startLineIndex :=
      match (tss.filter (fun p => jsLeOpt p.2 startSec)).getLast? with
      | some p => p.1 - 2
      | none => 0
    let endLineIndex :=
      if jsGtZero endSec then
        match tss.find? (fun p => jsGeOpt p.2 endSec) with
        | some p => p.1
        | none => lines.length - 1
      else lines.length - 1
    if endLineIndex < startLineIndex then
      List.intercalate ['\n'] ((lines.drop startLineIndex).take 100)
    else
      List.intercalate ['\n']
        ((lines.drop startLineIndex).take (endLineIndex + 1 - startLineIndex))

/-- Two-digit zero padding (`String(n).padStart(2, '0')`). -/
def pad2 (n : Nat) : List Char :=
  if n < 10 then '0' :: (Nat.repr n).data else (Nat.repr n).data

/-- `formatTime(totalSeconds)`: `M:SS` or `H:MM:SS` (first component
unpadded). -/
def formatTime (totalSeconds : Nat) : List Char :=
  let h := totalSeconds / 3600
  let m := (totalSeconds % 3600) / 60
  let s := totalSeconds % 60
  if 0 < h then (Nat.repr h).data ++ ':' :: pad2 m ++ ':' :: pad2 s
  else (Nat.repr m).data ++ ':' :: pad2 s

/-- A transcript segment (ephemeral, in-memory). -/
structure Segment where
  segmentIndex : Nat
  startTime : List Char
  endTime : List Char
  startSeconds : Nat
  endSeconds : Nat
  text : List Char
deriving DecidableEq

/-- Index of the last `\n` in `w` (meaningful when `w` contains one). -/
def lastNlIdx (w : List Char) : Nat :=
  w.length - 1 - w.reverse.findIdx (fun c => c = '\n')

/-- Scanner for `transcript.split(/\n\s*\n/)`: a separator match starts at a
`\n`, greedily consumes `\s*` and must end at a further `\n`; hence at a
newline whose following whitespace run contains another newline, the
separator extends to the last newline of that run.  Each step consumes at
least one character, so fuel equal to the length suffices. -/
def parasAux : Nat → List Char → List Char → List (List Char)
  | 0, acc, l => [acc.reverse ++ l]
  | _ + 1, acc, [] => [acc.reverse]
  | fuel + 1, acc, c :: rest =>
    if c = '\n' then
      let w := rest.takeWhile (fun d => jsWs d)
      if w.any (fun d => d = '\n') then
        acc.reverse :: parasAux fuel [] (rest.drop (lastNlIdx w + 1))
      else parasAux fuel (c :: acc) rest
    else parasAux fuel (c :: acc) rest

/-- `transcript.split(/\n\s*\n/)`. -/
def splitParas (l : List Char) : List (List Char) :=
  parasAux l.length [] l

/-- One step of the paragraph packer of `splitByCharCount`:
state is (emitted segments, currentText, next segment index). -/
def packStep (charsPerSegment : Nat) (st : List Segment × List Char × Nat)
    (para : List Char) : List Segment × List Char × Nat :=
  let trimmedPara := trimJS para
  if trimmedPara.isEmpty then st
  else
    let st2 :=
      if 0 < st.2.1.length && charsPerSegment < st.2.1.length + trimmedPara.length + 2 then
        (st.1 ++ [{ segmentIndex := st.2.2, startTime := [], endTime := [],
                    startSeconds := 0, endSeconds := 0, text := trimJS st.2.1 }],
         ([] : List Char), st.2.2 + 1)
      else st
    (st2.1, st2.2.1 ++ (if st2.2.1.isEmpty then [] else ['\n', '\n']) ++ trimmedPara,
     st2.2.2)

/-- `splitByCharCount(transcript, charsPerSegment)`: blank-line paragraph
packing with the final-segment push and the zero-segment whole-text
fallback. -/
def splitByCharCount (transcript : List Char) (charsPerSegment : Nat) : List Segment :=
  let st := (splitParas transcript).foldl (packStep charsPerSegment) ([], [], 0)
  let segs :=
    if (trimJS st.2.1).isEmpty then st.1
    else st.1 ++ [{ segmentIndex := st.2.2, startTime := [], endTime := [],
                    startSeconds := 0, endSeconds := 0, text := trimJS st.2.1 }]
  if segs.isEmpty then
    [{ segmentIndex := 0, startTime := [], endTime := [],
       startSeconds := 0, endSeconds := 0, text := transcript }]
  else segs

/-- The inner `for (const ts of timestamps)` loop of `splitIntoSegments`:
carries `(startLineIdx, endLineIdx)` and breaks at the first timestamp
beyond the window end. -/
def windowBoundsAux (segStartSec segEndSec : Nat) :
    List (Nat × Nat) → Nat → Nat → Nat × Nat
  | [], s, e => (s, e)
  | (idx, time) :: rest, s, e =>
    let s' := if segStartSec ≤ time && s = 0 then idx - 2 else s
    if segEndSec < time then (s', idx)
    else windowBoundsAux segStartSec segEndSec rest s' e

/-- `splitIntoSegments(transcript, segmentMinutes, charsPerSegment)`:
timestamp-window segmentation, falling back to `splitByCharCount` when the
transcript has no recognizable timestamps. -/
def splitIntoSegments (transcript : List Char) (segmentMinutes charsPerSegment : Nat) :
    List Segment :=
  let segmentSeconds := segmentMinutes * 60
  let lines := splitOnChar '\n' transcript
  let tss := lineTimestamps lines
  if tss.isEmpty then splitByCharCount transcript charsPerSegment
  else
    let lastTime := tss.foldl (fun a p => max a p.2) 0
    let numSegments := (lastTime + segmentSeconds - 1) / segmentSeconds
    (List.range numSegments).filterMap (fun seg =>
      let segStartSec := seg * segmentSeconds
      let segEndSec := min ((seg + 1) * segmentSeconds) (lastTime + 60)
      let b := windowBoundsAux segStartSec segEndSec tss 0 (lines.length - 1)
      let segmentText :=
        List.intercalate ['\n'] ((lines.drop b.1).take (b.2 + 1 - b.1))
      if (trimJS segmentText).isEmpty then none
      else some { segmentIndex := seg, startTime := formatTime segStartSec,
                  endTime := formatTime segEndSec, startSeconds := segStartSec,
                  endSeconds := segEndSec, text := segmentText })

/-! ## Step 3 of the lecture-creation endpoint: chapter merge -/

/-- A chapter proposed by a segment-level gateway call. -/
structure PChapter where
  title : List Char
  startTime : List Char
  endTime : List Char
deriving DecidableEq

/-- The duplicate test of the merge step:
`Math.abs(parseTime(existing.startTime) - parseTime(ch.startTime)) < 120`
(false when either time is NaN, as in JavaScript). -/
def isDuplicateOf (ch existing : PChapter) : Bool :=
  match parseTime existing.startTime, parseTime ch.startTime with
  | some a, some b => max a b - min a b < 120
  | _, _ => false

/-- One merge iteration: keep the accepted list if the proposal is a
duplicate of an accepted chapter, else append it. -/
def mergeStep (acc : List PChapter) (ch : PChapter) : List PChapter :=
  if acc.any (fun existing => isDuplicateOf ch existing) then acc else acc ++ [ch]

/-- Insert `a` before the first element `b` with `le a b` (used from the
right end of the list by `stableSort`, this preserves the original order
of elements with equal keys, like the stable `Array.prototype.sort`). -/
def stableInsert (le : PChapter → PChapter → Bool) (a : PChapter) :
    List PChapter → List PChapter
  | [] => [a]
  | b :: l => if le a b then a :: b :: l else b :: stableInsert le a l

/-- A stable sort modelling `Array.prototype.sort` with a numeric
comparator. -/
def stableSort (le : PChapter → PChapter → Bool) (l : List PChapter) : List PChapter :=
  l.foldr (stableInsert le) []

/-- The chapter merge: with timestamps, duplicate-window filtering followed
by a stable sort on parsed start time (`allChapters.sort((a, b) =>
parseTime(a.startTime) - parseTime(b.startTime))`); without timestamps,
segment order is kept unchanged.  Sequential ids are assigned afterwards
and are not modelled (no claim mentions them). -/
def mergeChapters (hasTimestamps : Bool) (proposals : List PChapter) : List PChapter :=
  if hasTimestamps then
    stableSort
      (fun a b => (parseTime a.startTime).getD 0 ≤ (parseTime b.startTime).getD 0)
      (proposals.foldl mergeStep [])
  else proposals

/-! ## The per-chapter deep-dive loop of `processLectureBackground` -/

/-- The per-chapter loop, abstracted over the outcome of the guarded body
(slice resolution, gateway call, JSON parse and store — its failure modes
are all caught by the `try/catch` of the loop body): a chapter already
`completed` is skipped, otherwise its status becomes `completed` on
success and `error` on failure, and the loop always continues to the next
chapter.  The carried-forward context string does not influence statuses
and is not modelled. -/
def processChapterLoop (outcome : Nat → Except (List Char) Unit) :
    Nat → List (List Char) → List (List Char)
  | _, [] => []
  | i, st :: rest =>
    (if st = ("completed").data then st
     else
       match outcome i with
       | .ok _ => ("completed").data
       | .error _ => ("error").data) :: processChapterLoop outcome (i + 1) rest

end ServerApp

namespace AIProvider

/-! ## `server/ai/aiProvider.js` -/

/-- `DEFAULT_CONFIG` of the provider module (fields used by the claims). -/
structure ProviderConfig where
  maxRetries : Nat := 3

/-- The provider `DEFAULT_CONFIG`. -/
def DEFAULT_CONFIG : ProviderConfig := {}

/-- `String.prototype.toLowerCase`, for the ASCII strings involved here. -/
def lowerJS (l : List Char) : List Char := l.map Char.toLower

/-- The `retryablePatterns` list of `isRetryableError`. -/
def retryablePatterns : List (List Char) :=
  [("rate limit").data, ("quota exceeded").data, ("timeout").data,
   ("network").data, ("ECONNRESET").data, ("ETIMEDOUT").data,
   ("503").data, ("429").data, ("overloaded").data]

/-- `isRetryableError(error)`: the lowercased message contains one of the
lowercased transient patterns. -/
def isRetryableError (msg : List Char) : Bool :=
  retryablePatterns.any (fun p => containsSub (lowerJS msg) (lowerJS p))

/-- The result record of `generateContent` (fields used by the claims;
`data`/`rawText`/`usage` carry no information relevant to the retry
policy and are left out). -/
structure GenResult where
  success : Bool
  error : Option (List Char)
  retryCount : Nat
deriving DecidableEq

/-- The `while (retryCount <= maxRetries)` loop of `generateContent`,
abstracted over the outcome of each attempt (the API call plus response
parsing, whose exceptions the `catch` receives as an error message).
Returns the result record together with the list of backoff delays slept
before each retry.  The fuel argument equals
`maxRetries + 1 - retryCount`, so fuel 0 is exactly the (unreachable)
loop exit with the trailing `Max retries exceeded` return. -/
def genAux (outcome : Nat → Except (List Char) (List Char)) (maxRetries : Nat) :
    Nat → Nat → GenResult × List Nat
  | retryCount, 0 =>
    ({ success := false, error := some (("Max retries exceeded").data),
       retryCount := retryCount }, [])
  | retryCount, fuel + 1 =>
    match outcome retryCount with
    | .ok _ => ({ success := true, error := none, retryCount := retryCount }, [])
    | .error msg =>
      if maxRetries < retryCount + 1 || !isRetryableError msg then
        ({ success := false, error := some msg, retryCount := retryCount + 1 }, [])
      else
        let d := min (1000 * 2 ^ retryCount) 10000
        let r := genAux outcome maxRetries (retryCount + 1) fuel
        (r.1, d :: r.2)

/-- `generateContent`, starting from `retryCount = 0`. -/
def generateContent (outcome : Nat → Except (List Char) (List Char))
    (maxRetries : Nat) : GenResult × List Nat :=
  genAux outcome maxRetries 0 (maxRetries + 1)

end AIProvider

namespace LLMCorrector

/-! ## `server/utils/llmCorrector.js` -/

/-- One correction entry `{original, corrected, reason}`. -/
structure Correction where
  original : List Char
  corrected : List Char
  reason : List Char
deriving DecidableEq

/-- The corrector configuration (fields the claims exercise). -/
structure CorrectionConfig where
  enabled : Bool := true
  maxSegmentLength : Nat := 2500

/-- The corrector `DEFAULT_CONFIG`. -/
def DEFAULT_CONFIG : CorrectionConfig := {}

/-- The result record of `correctWithLLM`.  A missing `skipped` key on the
JavaScript object is falsy exactly like an explicit `false`, so the field
defaults to `false`. -/
structure CorrectionResult where
  originalText : List Char
  correctedText : List Char
  corrections : List Correction
  success : Bool
  skipped : Bool := false
  error : Option (List Char) := none
deriving DecidableEq

/-- One iteration of the edit-application loop: apply the entry only when
`original` and `corrected` are truthy (non-empty) and `original` occurs in
the current text; then replace its first occurrence and append the entry
to `validCorrections`. -/
def applyStep (st : List Char × List Correction) (c : Correction) :
    List Char × List Correction :=
  if !c.original.isEmpty && !c.corrected.isEmpty && containsSub st.1 c.original then
    (replaceFirst c.original c.corrected st.1, st.2 ++ [c])
  else st

/-- The edit-application loop over the corrections list returned by the
gateway. -/
def applyCorrs (text : List Char) (cs : List Correction) :
    List Char × List Correction :=
  cs.foldl applyStep (text, [])

/-- `correctWithLLM(segment, aiProvider, config)`, abstracted over the
gateway outcome (a failed call or thrown error gives `.error msg`, a
successful schema call gives `.ok corrections`). -/
def correctWithLLM (cfg : CorrectionConfig) (segment : List Char)
    (gateway : Except (List Char) (List Correction)) : CorrectionResult :=
  if !cfg.enabled then
    { originalText := segment, correctedText := segment, corrections := [],
      success := true, skipped := true }
  else if (trimJS segment).isEmpty then
    { originalText := segment, correctedText := segment, corrections := [],
      success := true }
  else
    match gateway with
    | .error e =>
      { originalText := segment, correctedText := segment, corrections := [],
        success := false, error := some e }
    | .ok correctionsList =>
      let textToProcess :=
        if cfg.maxSegmentLength < segment.length then segment.take cfg.maxSegmentLength
        else segment
      let r := applyCorrs textToProcess correctionsList
      let finalText :=
        if cfg.maxSegmentLength < segment.length then r.1 ++ segment.drop cfg.maxSegmentLength
        else r.1
      { originalText := segment, correctedText := finalText, corrections := r.2,
        success := true }

end LLMCorrector

namespace Database

/-! ## `server/database.cjs` -/

/-- A persisted chapter row (the columns the recovery rule can touch or
must leave alone). -/
structure ChapterRow where
  id : List Char
  lectureId : List Char
  chapterNumber : Nat
  title : List Char
  startTime : List Char
  endTime : List Char
  detailedNote : List Char
  status : List Char
deriving DecidableEq

/-- The startup recovery statement of `initDB`:
`UPDATE chapters SET status = 'pending' WHERE status = 'processing'`. -/
def recoverStuckChapters (rows : List ChapterRow) : List ChapterRow :=
  rows.map (fun r =>
    if r.status = ("processing").data then { r with status := ("pending").data }
    else r)

end Database

/-! ## Specification-side reference definitions (for claims C6 and C9) -/

/-- A context character that cannot interact with the timestamp machinery:
a lowercase ASCII letter or a space (no digits, colons, brackets,
underscores, control, replacement or combining characters). -/
def cleanCtxChar (c : Char) : Bool :=
  (97 ≤ c.toNat && c.toNat ≤ 122) || c = ' '

/-- A well-formed timestamp token, `[?H?H:MM(:SS)?]?`: an optional opening
bracket, one or two hour digits, a colon, two minute digits, optional
colon-and-two-second-digits, an optional closing bracket. -/
structure TsTok where
  bracketL : Bool
  d1 : Char
  d2 : Option Char
  m1 : Char
  m2 : Char
  secs : Option (Char × Char)
  bracketR : Bool

/-- The characters of a timestamp token. -/
def TsTok.render (t : TsTok) : List Char :=
  (if t.bracketL then ['['] else []) ++ [t.d1] ++
  (match t.d2 with | some d => [d] | none => []) ++ [':', t.m1, t.m2] ++
  (match t.secs with | some p => [':', p.1, p.2] | none => []) ++
  (if t.bracketR then [']'] else [])

/-- Well-formedness: the digit positions hold digits. -/
def TsTok.WF (t : TsTok) : Prop :=
  isDig t.d1 = true ∧ (∀ d, t.d2 = some d → isDig d = true) ∧
  isDig t.m1 = true ∧ isDig t.m2 = true ∧
  (∀ s1 s2, t.secs = some (s1, s2) → isDig s1 = true ∧ isDig s2 = true)

/-! ### Reference definitions for claim C6

These follow the wording of the amended claim and are compared against
`extractSlice`. -/

/-- The line resolved for a chapter start: the latest timestamp at or
before the start time, backed up two lines for context; the top of the
document when no timestamp is at or before the start. -/
def specStartLine (tss : List (Nat × Nat)) (sv : Nat) : Nat :=
  match (tss.filter (fun p => decide (p.2 ≤ sv))).getLast? with
  | some p => p.1 - 2
  | none => 0

/-- The line resolved for a chapter end: the earliest timestamp at or after
the end time; the last line of the document when no timestamp is at or
after the end. -/
def specEndLine (tss : List (Nat × Nat)) (ev : Nat) (lastLine : Nat) : Nat :=
  match tss.find? (fun p => decide (ev ≤ p.2)) with
  | some p => p.1
  | none => lastLine

/-! ## Helper lemmas -/

/-- Inserting adds one element. -/
theorem ServerApp.length_stableInsert (le : ServerApp.PChapter → ServerApp.PChapter → Bool)
    (a : ServerApp.PChapter) :
    ∀ l, (ServerApp.stableInsert le a l).length = l.length + 1 := by
  intro l
  induction l with
  | nil => rfl
  | cons b l ih =>
    rw [ServerApp.stableInsert]
    split
    · simp
    · simp [ih]

/-- A list guarded by an empty-list fallback is never empty. -/
theorem length_ite_fallback_pos {α : Type} (segs : List α) (x : α) :
    1 ≤ (if segs.isEmpty = true then [x] else segs).length := by
  cases segs <;> simp

/-- Sorting preserves length. -/
theorem ServerApp.length_stableSort (le : ServerApp.PChapter → ServerApp.PChapter → Bool)
    (l : List ServerApp.PChapter) :
    (ServerApp.stableSort le l).length = l.length := by
  induction l with
  | nil => rfl
  | cons b l ih =>
    show (ServerApp.stableInsert le b (ServerApp.stableSort le l)).length = _
    rw [ServerApp.length_stableInsert, ih]
    rfl

/-- Elements of the accumulated `validCorrections` list come from the seed
state or from the processed list. -/
theorem LLMCorrector.applyStep_foldl_mem (cs : List LLMCorrector.Correction) :
    ∀ st c, c ∈ (cs.foldl LLMCorrector.applyStep st).2 → c ∈ st.2 ∨ c ∈ cs := by
  induction cs with
  | nil => intro st c h; exact Or.inl h
  | cons d cs ih =>
    intro st c h
    rcases ih (LLMCorrector.applyStep st d) c h with h1 | h1
    · unfold LLMCorrector.applyStep at h1
      by_cases hc : (!d.original.isEmpty && !d.corrected.isEmpty &&
          containsSub st.1 d.original) = true
      · rw [if_pos hc] at h1
        rcases List.mem_append.1 h1 with h2 | h2
        · exact Or.inl h2
        · simp only [List.mem_singleton] at h2
          exact Or.inr (by simp [h2])
      · rw [if_neg hc] at h1
        exact Or.inl h1
    · exact Or.inr (List.mem_cons_of_mem _ h1)

/-- A paragraph whose trim is empty leaves the packer state unchanged, so a
fully blank paragraph list leaves the initial state. -/
theorem ServerApp.packStep_blank_foldl (budget : Nat) (ps : List (List Char)) :
    ∀ st, (∀ p ∈ ps, trimJS p = []) → ps.foldl (ServerApp.packStep budget) st = st := by
  induction ps with
  | nil => intro st _; rfl
  | cons p ps ih =>
    intro st h
    have hp : trimJS p = [] := h p (by simp)
    have hstep : ServerApp.packStep budget st p = st := by
      unfold ServerApp.packStep
      simp [hp]
    rw [List.foldl_cons, hstep]
    exact ih st (fun q hq => h q (List.mem_cons_of_mem _ hq))

/-- Exhaustion of the retry loop on a permanently failing retryable error:
from retry count `rc` with the exact remaining fuel, the loop performs all
remaining attempts, sleeping the exponential-backoff delays, and returns
the failure record with retry count `maxRetries + 1`. -/
theorem AIProvider.genAux_exhaust (outcome : Nat → Except (List Char) (List Char))
    (maxRetries : Nat) (msg : List Char)
    (hall : ∀ i, outcome i = .error msg) (hr : AIProvider.isRetryableError msg = true) :
    ∀ fuel rc, rc + fuel = maxRetries + 1 → rc ≤ maxRetries →
      AIProvider.genAux outcome maxRetries rc fuel =
        ({ success := false, error := some msg, retryCount := maxRetries + 1 },
         (List.range (maxRetries - rc)).map (fun k => min (1000 * 2 ^ (rc + k)) 10000)) := by
  intro fuel
  induction fuel with
  | zero => intro rc h1 h2; omega
  | succ f ih =>
    intro rc h1 h2
    rw [AIProvider.genAux, hall rc]
    by_cases hrc : rc = maxRetries
    · subst hrc
      simp [hr]
    · have hlt : rc < maxRetries := lt_of_le_of_ne h2 hrc
      have hcond : (decide (maxRetries < rc + 1) || !AIProvider.isRetryableError msg) = false := by
        simp [hr]; omega
      simp only [hcond, Bool.false_eq_true, if_false]
      rw [ih (rc + 1) (by omega) (by omega)]
      have hmr : maxRetries - rc = (maxRetries - (rc + 1)) + 1 := by omega
      rw [hmr, List.range_succ_eq_map, List.map_cons, List.map_map]
      refine Prod.ext rfl ?_
      simp only [Nat.add_zero]
      refine congrArg (fun l => min (1000 * 2 ^ rc) 10000 :: l) ?_
      refine List.map_congr_left (fun k _ => ?_)
      have hidx : rc + 1 + k = rc + (k + 1) := by omega
      simp [Function.comp, hidx]

/-- The per-chapter loop on `m` fresh (`pending`) chapters starting at
index `i0`, with exactly the chapter `k` failing. -/
theorem ServerApp.procLoop_replicate (outcome : Nat → Except (List Char) Unit) (k : Nat)
    (hok : ∀ i, i ≠ k → outcome i = .ok ()) (herr : ∃ e, outcome k = .error e) :
    ∀ m i0, ServerApp.processChapterLoop outcome i0 (List.replicate m (("pending").data)) =
      (List.range m).map
        (fun j => if i0 + j = k then ("error").data else ("completed").data) := by
  intro m
  induction m with
  | zero => intro i0; rfl
  | succ m ih =>
    intro i0
    rw [List.replicate_succ, List.range_succ_eq_map, List.map_cons]
    rw [ServerApp.processChapterLoop]
    have hpend : ¬ (("pending").data = ("completed").data) := by decide
    refine congrArg₂ List.cons ?_ ?_
    · by_cases hik : i0 = k
      · rcases herr with ⟨e, he⟩
        subst hik
        simp [he, hpend]
      · rw [hok i0 hik]
        simp [hpend, hik]
    · rw [ih (i0 + 1), List.map_map]
      refine List.map_congr_left (fun j _ => ?_)
      have hidx : i0 + 1 + j = i0 + (j + 1) := by omega
      simp [Function.comp, hidx]

/-! ## Claim theorems -/

/-- Claim C1 (amended): the merge step drops a proposed chapter exactly when
its start time is strictly within 120 seconds of an already-accepted
chapter's start time; so two proposals less than 120 s apart merge to one
chapter, two proposals 120 s or more apart (in particular 121 s or more)
are both retained, and the literal scenarios hold ("10:00"/"11:30" gives
one chapter, "10:00"/"12:05" gives two). -/
theorem C1_merge_window :
    (∀ a b : ServerApp.PChapter, ∀ ta tb : Nat,
        ServerApp.parseTime a.startTime = some ta →
        ServerApp.parseTime b.startTime = some tb →
        (ServerApp.mergeChapters true [a, b]).length =
          if max ta tb - min ta tb < 120 then 1 else 2) ∧
    (∀ ps : List ServerApp.PChapter, ∀ ch : ServerApp.PChapter,
        (ps ++ [ch]).foldl ServerApp.mergeStep [] =
          if (ps.foldl ServerApp.mergeStep []).any
              (fun e => ServerApp.isDuplicateOf ch e)
          then ps.foldl ServerApp.mergeStep []
          else ps.foldl ServerApp.mergeStep [] ++ [ch]) ∧
    (ServerApp.mergeChapters true
        [⟨("A").data, ("10:00").data, ("11:00").data⟩,
         ⟨("B").data, ("11:30").data, ("12:00").data⟩]).length = 1 ∧
    (ServerApp.mergeChapters true
        [⟨("A").data, ("10:00").data, ("11:00").data⟩,
         ⟨("B").data, ("12:05").data, ("13:00").data⟩]).length = 2 := by
  refine ⟨?_, ?_, by decide, by decide⟩
  · intro a b ta tb ha hb
    have hfold : ([a, b] : List ServerApp.PChapter).foldl ServerApp.mergeStep [] =
        if ServerApp.isDuplicateOf b a then [a] else [a, b] := by
      simp [ServerApp.mergeStep]
    have hdup : ServerApp.isDuplicateOf b a =
        decide (max ta tb - min ta tb < 120) := by
      unfold ServerApp.isDuplicateOf
      rw [ha, hb]
    rw [ServerApp.mergeChapters, if_pos rfl, ServerApp.length_stableSort, hfold, hdup]
    by_cases h : max ta tb - min ta tb < 120
    · simp [h]
    · simp [h]
  · intro ps ch
    rw [List.foldl_append]
    simp [ServerApp.mergeStep]

/-- Claim C1 counterexample: at a start-time difference of exactly
120 seconds ("10:00" and "12:00", i.e. 600 s and 720 s), which is within
the claimed ±120-second window, the merge retains BOTH chapters instead of
dropping the second one. -/
theorem C1_boundary_counterexample :
    ServerApp.parseTime (("10:00").data) = some 600 ∧
    ServerApp.parseTime (("12:00").data) = some 720 ∧
    720 - 600 ≤ 120 ∧
    (ServerApp.mergeChapters true
        [⟨("A").data, ("10:00").data, ("11:00").data⟩,
         ⟨("B").data, ("12:00").data, ("13:00").data⟩]).length = 2 := by decide

/-- Claim C1 witness: the general two-chapter count at concrete inputs. -/
theorem C1_merge_window_witness :
    (ServerApp.mergeChapters true
        [⟨("A").data, ("0:30").data, ("1:00").data⟩,
         ⟨("B").data, ("2:00").data, ("3:00").data⟩]).length =
      if max 30 120 - min 30 120 < 120 then 1 else 2 :=
  C1_merge_window.1 ⟨("A").data, ("0:30").data, ("1:00").data⟩
    ⟨("B").data, ("2:00").data, ("3:00").data⟩ 30 120 (by decide) (by decide)

/-- Claim C2 (code bug): the normalizer is not idempotent.  On the input
`"a" ++ U+0005 ++ U+0301` the first run removes the control character after
NFC has already been applied, leaving the decomposed pair `a` + combining
acute; the second run composes that pair into U+00E1, so re-running
normalization on its own output changes the text again. -/
theorem C2_not_idempotent :
    TextNormalizer.normalizeText {} ['a', '\x05', '́'] = ['a', '́'] ∧
    TextNormalizer.normalizeText {}
        (TextNormalizer.normalizeText {} ['a', '\x05', '́']) = ['á'] ∧
    TextNormalizer.normalizeText {}
        (TextNormalizer.normalizeText {} ['a', '\x05', '́']) ≠
      TextNormalizer.normalizeText {} ['a', '\x05', '́'] := by decide

/-- Claim C3: retry classification matches exactly the transient-pattern
list; a non-retryable first error fails immediately with retry count 1 and
no backoff sleeps; a permanently failing retryable error is retried
`maxRetries` times with backoff `min(1000·2^(attempt-1), 10000)` before
each retry and then returns the failure record (success false, the error
message, retry count `maxRetries + 1`) instead of throwing; the default
retry budget is 3. -/
theorem C3_retry_policy (outcome : Nat → Except (List Char) (List Char))
    (maxRetries : Nat) (msg : List Char) :
    AIProvider.DEFAULT_CONFIG.maxRetries = 3 ∧
    (∀ m : List Char, AIProvider.isRetryableError m = true ↔
        ∃ p ∈ AIProvider.retryablePatterns,
          containsSub (AIProvider.lowerJS m) (AIProvider.lowerJS p) = true) ∧
    (outcome 0 = .error msg → AIProvider.isRetryableError msg = false →
        AIProvider.generateContent outcome maxRetries =
          ({ success := false, error := some msg, retryCount := 1 }, [])) ∧
    ((∀ i, outcome i = .error msg) → AIProvider.isRetryableError msg = true →
        AIProvider.generateContent outcome maxRetries =
          ({ success := false, error := some msg, retryCount := maxRetries + 1 },
           (List.range maxRetries).map (fun k => min (1000 * 2 ^ k) 10000))) := by
  refine ⟨rfl, ?_, ?_, ?_⟩
  · intro m
    simp [AIProvider.isRetryableError, List.any_eq_true]
  · intro h0 hnr
    rw [AIProvider.generateContent, AIProvider.genAux, h0]
    simp [hnr]
  · intro hall hr
    have h := AIProvider.genAux_exhaust outcome maxRetries msg hall hr
      (maxRetries + 1) 0 (by omega) (by omega)
    rw [AIProvider.generateContent, h]
    simp

/-- Claim C3 witness: both failure modes at concrete inputs
(`maxRetries = 3`, the default). -/
theorem C3_retry_policy_witness :
    AIProvider.generateContent (fun _ => .error (("timeout").data)) 3 =
      ({ success := false, error := some (("timeout").data), retryCount := 4 },
       [1000, 2000, 4000]) ∧
    AIProvider.generateContent (fun _ => .error (("boom").data)) 3 =
      ({ success := false, error := some (("boom").data), retryCount := 1 }, []) := by
  constructor
  · exact ((C3_retry_policy (fun _ => .error (("timeout").data)) 3
      (("timeout").data)).2.2.2 (fun i => rfl) (by decide)).trans (by decide)
  · exact (C3_retry_policy (fun _ => .error (("boom").data)) 3
      (("boom").data)).2.2.1 rfl (by decide)

/-- Claim C4 (amended): when the transcript has no recognizable timestamps
the segmenter delegates to the character-budget packer, which always
returns at least one segment and returns exactly one whole-transcript
segment when the packing produces none (all paragraphs blank); but the
timestamp-window path has no such fallback (see the counterexample). -/
theorem C4_zero_segment_fallback :
    (∀ t : List Char, ∀ win budget : Nat, ServerApp.transcriptTimestamps t = [] →
        ServerApp.splitIntoSegments t win budget = ServerApp.splitByCharCount t budget) ∧
    (∀ t : List Char, ∀ budget : Nat, 1 ≤ (ServerApp.splitByCharCount t budget).length) ∧
    (∀ t : List Char, ∀ budget : Nat, (∀ p ∈ ServerApp.splitParas t, trimJS p = []) →
        ServerApp.splitByCharCount t budget =
          [{ segmentIndex := 0, startTime := [], endTime := [],
             startSeconds := 0, endSeconds := 0, text := t }]) := by
  refine ⟨?_, ?_, ?_⟩
  · intro t win budget h
    rw [ServerApp.splitIntoSegments]
    rw [ServerApp.transcriptTimestamps] at h
    simp [h]
  · intro t budget
    unfold ServerApp.splitByCharCount
    exact length_ite_fallback_pos _ _
  · intro t budget h
    rw [ServerApp.splitByCharCount, ServerApp.packStep_blank_foldl budget _ _ h]
    simp [show trimJS [] = [] from rfl]

/-- Claim C4 counterexample: a transcript whose only timestamp parses to 0
seconds takes the timestamp-window path, which computes zero windows and
returns ZERO segments — not one whole-text segment as claimed. -/
theorem C4_counterexample :
    ServerApp.transcriptTimestamps (("[0:00] hello").data) ≠ [] ∧
    ServerApp.splitIntoSegments (("[0:00] hello").data) 30 10000 = [] := by decide

/-- Claim C4 witness: the three amended clauses at concrete inputs. -/
theorem C4_zero_segment_fallback_witness :
    ServerApp.splitIntoSegments (("just plain text, no times at all").data) 30 10000 =
      ServerApp.splitByCharCount (("just plain text, no times at all").data) 10000 ∧
    1 ≤ (ServerApp.splitByCharCount (("  ").data) 10000).length ∧
    ServerApp.splitByCharCount (("  \n\n  ").data) 10000 =
      [{ segmentIndex := 0, startTime := [], endTime := [],
         startSeconds := 0, endSeconds := 0, text := ("  \n\n  ").data }] :=
  ⟨C4_zero_segment_fallback.1 (("just plain text, no times at all").data) 30 10000 (by decide),
   C4_zero_segment_fallback.2.1 (("  ").data) 10000,
   C4_zero_segment_fallback.2.2 (("  \n\n  ").data) 10000 (by decide)⟩

/-- Claim C5 (amended): in `correctWithLLM`, an edit is applied only if its
`original` occurs verbatim in the CURRENT text at its turn (the text after
the earlier entries of the list have been applied; initially the processed
segment).  A correction entry whose `original` (or `corrected`) is empty
or whose `original` does not occur in that current text is a complete
no-op: deleting it from the gateway's list leaves the returned result
unchanged, and (unless it also occurs elsewhere in the list) it does not
appear in the returned corrections list. -/
theorem C5_edit_safety (cfg : LLMCorrector.CorrectionConfig) (segment : List Char)
    (cs1 cs2 : List LLMCorrector.Correction) (c : LLMCorrector.Correction)
    (hen : cfg.enabled = true) (hne : ¬ (trimJS segment).isEmpty = true)
    (hlen : ¬ cfg.maxSegmentLength < segment.length)
    (hmiss : (!c.original.isEmpty && !c.corrected.isEmpty &&
        containsSub (LLMCorrector.applyCorrs segment cs1).1 c.original) = false) :
    LLMCorrector.correctWithLLM cfg segment (.ok (cs1 ++ c :: cs2)) =
      LLMCorrector.correctWithLLM cfg segment (.ok (cs1 ++ cs2)) ∧
    (c ∉ cs1 → c ∉ cs2 →
      c ∉ (LLMCorrector.correctWithLLM cfg segment (.ok (cs1 ++ c :: cs2))).corrections) := by
  have hstep : LLMCorrector.applyStep (LLMCorrector.applyCorrs segment cs1) c =
      LLMCorrector.applyCorrs segment cs1 := by
    conv_lhs => rw [LLMCorrector.applyStep]
    rw [if_neg]
    intro hcontra
    rw [hmiss] at hcontra
    exact Bool.false_ne_true hcontra
  have happ : LLMCorrector.applyCorrs segment (cs1 ++ c :: cs2) =
      LLMCorrector.applyCorrs segment (cs1 ++ cs2) := by
    show (cs1 ++ c :: cs2).foldl LLMCorrector.applyStep (segment, []) =
      (cs1 ++ cs2).foldl LLMCorrector.applyStep (segment, [])
    rw [List.foldl_append, List.foldl_append, List.foldl_cons]
    refine congrArg (fun st => cs2.foldl LLMCorrector.applyStep st) ?_
    exact hstep
  have hres : LLMCorrector.correctWithLLM cfg segment (.ok (cs1 ++ c :: cs2)) =
      LLMCorrector.correctWithLLM cfg segment (.ok (cs1 ++ cs2)) := by
    unfold LLMCorrector.correctWithLLM
    rw [hen]
    simp only [Bool.not_true, Bool.false_eq_true, if_false]
    rw [if_neg hne, if_neg hne]
    simp only [if_neg hlen]
    rw [happ]
  refine ⟨hres, ?_⟩
  intro h1 h2 hmem
  rw [hres] at hmem
  have hcorr : (LLMCorrector.correctWithLLM cfg segment (.ok (cs1 ++ cs2))).corrections =
      (LLMCorrector.applyCorrs segment (cs1 ++ cs2)).2 := by
    unfold LLMCorrector.correctWithLLM
    rw [hen]
    simp only [Bool.not_true, Bool.false_eq_true, if_false]
    rw [if_neg hne]
    simp only [if_neg hlen]
  rw [hcorr] at hmem
  rcases LLMCorrector.applyStep_foldl_mem (cs1 ++ cs2) (segment, []) c hmem with h | h
  · simp at h
  · rcases List.mem_append.1 h with h | h
    · exact h1 h
    · exact h2 h

/-- Claim C5 counterexample: an entry whose `original` ("xy") does NOT
occur in the input segment ("ab") is nevertheless applied and listed in
the returned corrections, because an earlier entry rewrote the text to
"xy" first: the code checks the evolving text, not the input segment. -/
theorem C5_counterexample :
    containsSub (("ab").data) (("xy").data) = false ∧
    (LLMCorrector.correctWithLLM {} (("ab").data)
        (.ok [⟨("ab").data, ("xy").data, ("r1").data⟩,
              ⟨("xy").data, ("z").data, ("r2").data⟩])).corrections =
      [⟨("ab").data, ("xy").data, ("r1").data⟩,
       ⟨("xy").data, ("z").data, ("r2").data⟩] ∧
    (LLMCorrector.correctWithLLM {} (("ab").data)
        (.ok [⟨("ab").data, ("xy").data, ("r1").data⟩,
              ⟨("xy").data, ("z").data, ("r2").data⟩])).correctedText = ("z").data := by
  decide

/-- Claim C5 witness: a non-matching entry is dropped and changes nothing
at a concrete input. -/
theorem C5_edit_safety_witness :
    LLMCorrector.correctWithLLM {} (("hello world").data)
        (.ok [⟨("hello").data, ("hullo").data, ("r").data⟩,
              ⟨("zz").data, ("q").data, ("r").data⟩]) =
      LLMCorrector.correctWithLLM {} (("hello world").data)
        (.ok [⟨("hello").data, ("hullo").data, ("r").data⟩]) ∧
    ⟨("zz").data, ("q").data, ("r").data⟩ ∉
      (LLMCorrector.correctWithLLM {} (("hello world").data)
        (.ok [⟨("hello").data, ("hullo").data, ("r").data⟩,
              ⟨("zz").data, ("q").data, ("r").data⟩])).corrections := by
  have h := C5_edit_safety {} (("hello world").data)
    [⟨("hello").data, ("hullo").data, ("r").data⟩] []
    ⟨("zz").data, ("q").data, ("r").data⟩ rfl (by decide) (by decide) (by decide)
  exact ⟨h.1, h.2 (by decide) (by decide)⟩

/-- Claim C6 (amended): with a parsed start and a positive parsed end and
at least one line timestamp, `extractSlice` starts at the latest timestamp
at or before the start (two lines backed up; the top when none), ends at
the EARLIEST timestamp at or after the end — extending to the end of the
document only when no such timestamp exists — and on a degenerate
resolved start-line past the end-line returns the fixed 100-line window
from the start.  The literal bracketing scenario holds. -/
theorem C6_slice_bracketing (text s e : List Char) (sv ev : Nat)
    (hs : ServerApp.parseTime s = some sv) (he : ServerApp.parseTime e = some ev)
    (hev : 0 < ev)
    (hne : ServerApp.lineTimestamps (splitOnChar '\n' text) ≠ []) :
    (ServerApp.extractSlice text s e =
      (let lines := splitOnChar '\n' text
       let tss := ServerApp.lineTimestamps lines
       let si := specStartLine tss sv
       let ei := specEndLine tss ev (lines.length - 1)
       if ei < si then List.intercalate ['\n'] ((lines.drop si).take 100)
       else List.intercalate ['\n'] ((lines.drop si).take (ei + 1 - si)))) ∧
    (ServerApp.extractSlice
        (("intro\n[00:00] a\nx\n[04:00] b\ny\n[12:00] c\nz").data)
        (("05:00").data) (("10:00").data) =
      ("[00:00] a\nx\n[04:00] b\ny\n[12:00] c").data) := by
  constructor
  · rw [ServerApp.extractSlice]
    rw [hs, he]
    have hje : (fun p : Nat × Nat => ServerApp.jsLeOpt p.2 (some sv)) =
        (fun p : Nat × Nat => decide (p.2 ≤ sv)) := by
      funext p; rfl
    have hjg : (fun p : Nat × Nat => ServerApp.jsGeOpt p.2 (some ev)) =
        (fun p : Nat × Nat => decide (ev ≤ p.2)) := by
      funext p; rfl
    have hgz : ServerApp.jsGtZero (some ev) = true := by
      simp [ServerApp.jsGtZero, hev]
    rw [if_neg (by simpa [List.isEmpty_iff] using hne)]
    rw [hje, hjg, hgz]
    simp only [if_true]
    rfl
  · decide

/-- Claim C6 counterexample: with timestamps at 0:00 and 12:00 and a
trailing line, an end time of 10:00 (no exact line match) resolves to the
12:00 line, NOT to the end of the document: the final line is excluded
from the slice, refuting the claimed end-of-document extension. -/
theorem C6_counterexample :
    ServerApp.parseTime (("10:00").data) = some 600 ∧
    (ServerApp.lineTimestamps
        (splitOnChar '\n' (("[0:00] a\n[12:00] b\nc").data))).all
      (fun p => p.2 != 600) = true ∧
    ServerApp.extractSlice (("[0:00] a\n[12:00] b\nc").data)
        (("0:00").data) (("10:00").data) = ("[0:00] a\n[12:00] b").data ∧
    ServerApp.extractSlice (("[0:00] a\n[12:00] b\nc").data)
        (("0:00").data) (("10:00").data) ≠ ("[0:00] a\n[12:00] b\nc").data := by
  decide

/-- Claim C6 witness: the general slice characterization at the scenario
input. -/
theorem C6_slice_bracketing_witness :
    ServerApp.extractSlice
        (("intro\n[00:00] a\nx\n[04:00] b\ny\n[12:00] c\nz").data)
        (("05:00").data) (("10:00").data) =
      (let lines := splitOnChar '\n'
        (("intro\n[00:00] a\nx\n[04:00] b\ny\n[12:00] c\nz").data)
       let tss := ServerApp.lineTimestamps lines
       let si := specStartLine tss 300
       let ei := specEndLine tss 600 (lines.length - 1)
       if ei < si then List.intercalate ['\n'] ((lines.drop si).take 100)
       else List.intercalate ['\n'] ((lines.drop si).take (ei + 1 - si))) :=
  (C6_slice_bracketing
    (("intro\n[00:00] a\nx\n[04:00] b\ny\n[12:00] c\nz").data)
    (("05:00").data) (("10:00").data) 300 600
    (by decide) (by decide) (by decide) (by decide)).1

/-- Claim C7: the startup recovery rule maps every chapter row whose
status is `processing` to the same row with status `pending`, and returns
every other row (any other status, all other columns) unchanged; no row is
added or removed. -/
theorem C7_crash_recovery (rows : List Database.ChapterRow) (r : Database.ChapterRow)
    (i : Nat) (h : rows[i]? = some r) :
    (Database.recoverStuckChapters rows).length = rows.length ∧
    (r.status = ("processing").data →
      (Database.recoverStuckChapters rows)[i]? =
        some { r with status := ("pending").data }) ∧
    (r.status ≠ ("processing").data →
      (Database.recoverStuckChapters rows)[i]? = some r) := by
  refine ⟨by simp [Database.recoverStuckChapters], ?_, ?_⟩
  · intro hp
    rw [Database.recoverStuckChapters, List.getElem?_map, h]
    simp [hp]
  · intro hp
    rw [Database.recoverStuckChapters, List.getElem?_map, h]
    simp [hp]

/-- Claim C7 witness: recovery at a concrete two-row table, one stuck row
and one completed row. -/
theorem C7_crash_recovery_witness :
    (Database.recoverStuckChapters
        [{ id := ("c1").data, lectureId := ("l1").data, chapterNumber := 1,
           title := ("t1").data, startTime := ("0:00").data, endTime := ("5:00").data,
           detailedNote := [], status := ("processing").data },
         { id := ("c2").data, lectureId := ("l1").data, chapterNumber := 2,
           title := ("t2").data, startTime := ("5:00").data, endTime := ("9:00").data,
           detailedNote := ("kept").data, status := ("completed").data }])[0]? =
      some { id := ("c1").data, lectureId := ("l1").data, chapterNumber := 1,
             title := ("t1").data, startTime := ("0:00").data, endTime := ("5:00").data,
             detailedNote := [], status := ("pending").data } ∧
    (Database.recoverStuckChapters
        [{ id := ("c1").data, lectureId := ("l1").data, chapterNumber := 1,
           title := ("t1").data, startTime := ("0:00").data, endTime := ("5:00").data,
           detailedNote := [], status := ("processing").data },
         { id := ("c2").data, lectureId := ("l1").data, chapterNumber := 2,
           title := ("t2").data, startTime := ("5:00").data, endTime := ("9:00").data,
           detailedNote := ("kept").data, status := ("completed").data }])[1]? =
      some { id := ("c2").data, lectureId := ("l1").data, chapterNumber := 2,
             title := ("t2").data, startTime := ("5:00").data, endTime := ("9:00").data,
             detailedNote := ("kept").data, status := ("completed").data } := by
  constructor
  · exact (C7_crash_recovery
      [{ id := ("c1").data, lectureId := ("l1").data, chapterNumber := 1,
         title := ("t1").data, startTime := ("0:00").data, endTime := ("5:00").data,
         detailedNote := [], status := ("processing").data },
       { id := ("c2").data, lectureId := ("l1").data, chapterNumber := 2,
         title := ("t2").data, startTime := ("5:00").data, endTime := ("9:00").data,
         detailedNote := ("kept").data, status := ("completed").data }]
      { id := ("c1").data, lectureId := ("l1").data, chapterNumber := 1,
        title := ("t1").data, startTime := ("0:00").data, endTime := ("5:00").data,
        detailedNote := [], status := ("processing").data }
      0 rfl).2.1 rfl
  · exact (C7_crash_recovery
      [{ id := ("c1").data, lectureId := ("l1").data, chapterNumber := 1,
         title := ("t1").data, startTime := ("0:00").data, endTime := ("5:00").data,
         detailedNote := [], status := ("processing").data },
       { id := ("c2").data, lectureId := ("l1").data, chapterNumber := 2,
         title := ("t2").data, startTime := ("5:00").data, endTime := ("9:00").data,
         detailedNote := ("kept").data, status := ("completed").data }]
      { id := ("c2").data, lectureId := ("l1").data, chapterNumber := 2,
        title := ("t2").data, startTime := ("5:00").data, endTime := ("9:00").data,
        detailedNote := ("kept").data, status := ("completed").data }
      1 rfl).2.2 (by decide)

/-- Claim C8: in the per-chapter deep-dive loop over `n` fresh (`pending`)
chapters in which exactly chapter `k` fails, the loop runs to completion
(it is a total function producing a status for every chapter), chapter `k`
ends in status `error`, and every other chapter ends in status
`completed`. -/
theorem C8_partial_failure (outcome : Nat → Except (List Char) Unit) (n k : Nat)
    (_hk : k < n) (hok : ∀ i, i ≠ k → outcome i = .ok ())
    (herr : ∃ e, outcome k = .error e) :
    ServerApp.processChapterLoop outcome 0 (List.replicate n (("pending").data)) =
      (List.range n).map
        (fun i => if i = k then ("error").data else ("completed").data) ∧
    (ServerApp.processChapterLoop outcome 0
        (List.replicate n (("pending").data))).length = n := by
  have h := ServerApp.procLoop_replicate outcome k hok herr n 0
  constructor
  · rw [h]
    refine List.map_congr_left (fun j _ => ?_)
    simp
  · rw [h]
    simp

/-- Claim C8 witness: three chapters with the middle one failing. -/
theorem C8_partial_failure_witness :
    ServerApp.processChapterLoop
        (fun i => if i = 1 then .error (("boom").data) else .ok ()) 0
        (List.replicate 3 (("pending").data)) =
      (List.range 3).map
        (fun i => if i = 1 then ("error").data else ("completed").data) :=
  (C8_partial_failure (fun i => if i = 1 then .error (("boom").data) else .ok ())
    3 1 (by omega)
    (fun i hi => by simp [hi])
    ⟨("boom").data, by simp⟩).1

/-- Claim C10 (amended): `correctWithLLM` short-circuits without consulting
the gateway both when correction is disabled and when the segment is empty
or whitespace-only, returning a no-op success result (corrected text equal
to the input, empty corrections list, success true); but only the
disabled branch is tagged `skipped` — the empty/whitespace-only branch
carries no `skipped` tag (see the counterexample). -/
theorem C10_short_circuit (cfg : LLMCorrector.CorrectionConfig) (segment : List Char)
    (gw : Except (List Char) (List LLMCorrector.Correction)) :
    (cfg.enabled = false →
      LLMCorrector.correctWithLLM cfg segment gw =
        { originalText := segment, correctedText := segment, corrections := [],
          success := true, skipped := true, error := none }) ∧
    (cfg.enabled = true → trimJS segment = [] →
      LLMCorrector.correctWithLLM cfg segment gw =
        { originalText := segment, correctedText := segment, corrections := [],
          success := true, skipped := false, error := none }) := by
  constructor
  · intro h
    unfold LLMCorrector.correctWithLLM
    simp [h]
  · intro h1 h2
    unfold LLMCorrector.correctWithLLM
    simp [h1, h2]

/-- Claim C10 counterexample: the whitespace-only segment branch returns
success without the `skipped` tag, while the claim says it is tagged
`skipped`. -/
theorem C10_skip_tag_counterexample :
    (LLMCorrector.correctWithLLM {} ((" ").data) (.ok [])).skipped = false ∧
    (LLMCorrector.correctWithLLM {} ((" ").data) (.ok [])).success = true ∧
    (LLMCorrector.correctWithLLM {} ((" ").data) (.ok [])).correctedText = (" ").data := by
  decide

/-- Claim C10 witness: both short-circuit branches at concrete inputs,
independent of a gateway outcome that would fail if consulted. -/
theorem C10_short_circuit_witness :
    LLMCorrector.correctWithLLM { enabled := false } (("x").data)
        (.error (("gateway down").data)) =
      { originalText := ("x").data, correctedText := ("x").data, corrections := [],
        success := true, skipped := true, error := none } ∧
    LLMCorrector.correctWithLLM {} (("  ").data) (.error (("gateway down").data)) =
      { originalText := ("  ").data, correctedText := ("  ").data, corrections := [],
        success := true, skipped := false, error := none } :=
  ⟨(C10_short_circuit { enabled := false } (("x").data)
      (.error (("gateway down").data))).1 rfl,
   (C10_short_circuit {} (("  ").data) (.error (("gateway down").data))).2
      rfl (by decide)⟩

/-! ## Lemmas for claim C9 (timestamp preservation) -/

/-- Facts about clean context characters. -/
theorem c9_clean_facts {c : Char} (h : cleanCtxChar c = true) :
    ¬c = '\r' ∧ ¬c = '\n' ∧ ¬c = '﻿' ∧ ¬c = '[' ∧ ¬c = ':' ∧ ¬c = ']' ∧ ¬c = '_' ∧
    isDig c = false ∧ jsControl c = false ∧ ¬c = '�' ∧ ¬c = '́' := by
  simp only [cleanCtxChar, Bool.or_eq_true, decide_eq_true_eq, Bool.and_eq_true] at h
  rcases h with ⟨h1, h2⟩ | h
  · refine ⟨?_, ?_, ?_, ?_, ?_, ?_, ?_, ?_, ?_, ?_, ?_⟩
    · intro he; subst he; exact absurd h1 (by decide)
    · intro he; subst he; exact absurd h1 (by decide)
    · intro he; subst he; exact absurd h2 (by decide)
    · intro he; subst he; exact absurd h1 (by decide)
    · intro he; subst he; exact absurd h1 (by decide)
    · intro he; subst he; exact absurd h1 (by decide)
    · intro he; subst he; exact absurd h1 (by decide)
    · simp [isDig]; omega
    · simp [jsControl]; omega
    · intro he; subst he; exact absurd h2 (by decide)
    · intro he; subst he; exact absurd h2 (by decide)
  · subst h
    refine ⟨by decide, by decide, by decide, by decide, by decide, by decide,
      by decide, by decide, by decide, by decide, by decide⟩

/-- A clean context character is whitespace exactly when it is the space. -/
theorem c9_clean_ws {c : Char} (h : cleanCtxChar c = true) :
    jsWs c = decide (c = ' ') := by
  simp only [cleanCtxChar, Bool.or_eq_true, decide_eq_true_eq, Bool.and_eq_true] at h
  rcases h with ⟨h1, h2⟩ | h
  · have hne : ¬c = ' ' := by intro he; subst he; exact absurd h1 (by decide)
    rw [decide_eq_false hne]
    simp [jsWs]; omega
  · subst h; decide

/-- Facts about the characters of a timestamp token. -/
theorem c9_ts_facts {c : Char}
    (h : c = '[' ∨ c = ']' ∨ c = ':' ∨ isDig c = true) :
    ¬c = '\r' ∧ ¬c = '\n' ∧ jsWs c = false ∧ jsControl c = false ∧
    ¬c = '�' ∧ ¬c = '́' ∧ ¬c = '_' ∧ ¬c = '﻿' := by
  rcases h with h | h | h | h
  · subst h
    refine ⟨by decide, by decide, by decide, by decide, by decide, by decide,
      by decide, by decide⟩
  · subst h
    refine ⟨by decide, by decide, by decide, by decide, by decide, by decide,
      by decide, by decide⟩
  · subst h
    refine ⟨by decide, by decide, by decide, by decide, by decide, by decide,
      by decide, by decide⟩
  · simp only [isDig, Bool.and_eq_true, decide_eq_true_eq] at h
    obtain ⟨h1, h2⟩ := h
    refine ⟨?_, ?_, ?_, ?_, ?_, ?_, ?_, ?_⟩
    · intro he; subst he; exact absurd h1 (by decide)
    · intro he; subst he; exact absurd h1 (by decide)
    · simp [jsWs]; omega
    · simp [jsControl]; omega
    · intro he; subst he; exact absurd h2 (by decide)
    · intro he; subst he; exact absurd h2 (by decide)
    · intro he; subst he; exact absurd h2 (by decide)
    · intro he; subst he; exact absurd h2 (by decide)

/-- A digit is none of the structural characters. -/
theorem c9_dig_facts {c : Char} (h : isDig c = true) :
    ¬c = '[' ∧ ¬c = ']' ∧ ¬c = ':' := by
  simp only [isDig, Bool.and_eq_true, decide_eq_true_eq] at h
  obtain ⟨h1, h2⟩ := h
  refine ⟨?_, ?_, ?_⟩
  · intro he; subst he; exact absurd h2 (by decide)
  · intro he; subst he; exact absurd h2 (by decide)
  · intro he; subst he; exact absurd h2 (by decide)

/-- The token characters all satisfy the structural-character disjunction. -/
theorem c9_render_chars {t : TsTok} (ht : t.WF) :
    ∀ c ∈ t.render, c = '[' ∨ c = ']' ∨ c = ':' ∨ isDig c = true := by
  obtain ⟨hd1, hd2, hm1, hm2, hs⟩ := ht
  intro c hc
  simp only [TsTok.render, List.mem_append] at hc
  rcases hc with ((((hb | hb) | hb) | hb) | hb) | hb
  · cases hbL : t.bracketL
    · rw [hbL] at hb; simp at hb
    · rw [hbL] at hb; simp at hb; subst hb; left; rfl
  · simp at hb; subst hb
    right; right; right; exact hd1
  · cases hd : t.d2 with
    | none => rw [hd] at hb; simp at hb
    | some d =>
      rw [hd] at hb; simp at hb; subst hb
      right; right; right; exact hd2 _ hd
  · simp at hb
    rcases hb with hb | hb | hb
    · subst hb; right; right; left; rfl
    · subst hb; right; right; right; exact hm1
    · subst hb; right; right; right; exact hm2
  · cases hp : t.secs with
    | none => rw [hp] at hb; simp at hb
    | some p =>
      rw [hp] at hb
      obtain ⟨hs1, hs2⟩ := hs p.1 p.2 (by rw [hp])
      simp at hb
      rcases hb with hb | hb | hb
      · subst hb; right; right; left; rfl
      · subst hb; right; right; right; exact hs1
      · subst hb; right; right; right; exact hs2
  · cases hbR : t.bracketR
    · rw [hbR] at hb; simp at hb
    · rw [hbR] at hb; simp at hb; subst hb; right; left; rfl

/-- A timestamp token renders to a non-empty string. -/
theorem c9_render_ne_nil (t : TsTok) : t.render ≠ [] := by
  simp only [TsTok.render]
  intro h
  rcases List.append_eq_nil.1 h with ⟨h1, _⟩
  rcases List.append_eq_nil.1 h1 with ⟨h2, _⟩
  rcases List.append_eq_nil.1 h2 with ⟨h3, _⟩
  rcases List.append_eq_nil.1 h3 with ⟨h4, h5⟩
  rcases List.append_eq_nil.1 h4 with ⟨_, h6⟩
  exact List.cons_ne_nil _ _ h6

/-- `\[?` consumes nothing when the head is not `[`. -/
theorem c9_optL_skip {l : List Char} (h : ∀ c, l.head? = some c → ¬c = '[') :
    TextNormalizer.matchOptLBracket l = ([], l) := by
  cases l with
  | nil => rfl
  | cons c r => simp [TextNormalizer.matchOptLBracket, h c rfl]

/-- `\[?` consumes a leading `[`. -/
theorem c9_optL_take (r : List Char) :
    TextNormalizer.matchOptLBracket ('[' :: r) = (['['], r) := by
  simp [TextNormalizer.matchOptLBracket]

/-- `\d{1,2}:` on two digits and a colon. -/
theorem c9_hc2 {d1 d : Char} (h1 : isDig d1 = true) (h2 : isDig d = true)
    (r : List Char) :
    TextNormalizer.matchHourColon (d1 :: d :: ':' :: r) = some ([d1, d, ':'], r) := by
  simp [TextNormalizer.matchHourColon, h1, h2]

/-- `\d{1,2}:` on one digit and a colon. -/
theorem c9_hc1 {d1 : Char} (h1 : isDig d1 = true) (r : List Char) :
    TextNormalizer.matchHourColon (d1 :: ':' :: r) = some ([d1, ':'], r) := by
  simp [TextNormalizer.matchHourColon, h1, show isDig ':' = false from by decide]

/-- `\d{2}` on two digits. -/
theorem c9_mm {m1 m2 : Char} (h1 : isDig m1 = true) (h2 : isDig m2 = true)
    (r : List Char) :
    TextNormalizer.matchMM (m1 :: m2 :: r) = some ([m1, m2], r) := by
  simp [TextNormalizer.matchMM, h1, h2]

/-- `(?::\d{2})?` consumes a colon and two digits. -/
theorem c9_secs_take {s1 s2 : Char} (h1 : isDig s1 = true) (h2 : isDig s2 = true)
    (r : List Char) :
    TextNormalizer.matchOptSecs (':' :: s1 :: s2 :: r) = ([':', s1, s2], r) := by
  simp [TextNormalizer.matchOptSecs, h1, h2]

/-- `(?::\d{2})?` consumes nothing when the head is not a colon. -/
theorem c9_secs_skip {l : List Char} (h : ∀ c, l.head? = some c → ¬c = ':') :
    TextNormalizer.matchOptSecs l = ([], l) := by
  cases l with
  | nil => rfl
  | cons c r =>
    cases r with
    | nil => rfl
    | cons c2 r2 =>
      cases r2 with
      | nil => rfl
      | cons c3 r3 => simp [TextNormalizer.matchOptSecs, h c rfl]

/-- `\]?` consumes a leading `]`. -/
theorem c9_rb_take (r : List Char) :
    TextNormalizer.matchOptRBracket (']' :: r) = ([']'], r) := by
  simp [TextNormalizer.matchOptRBracket]

/-- `\]?` consumes nothing when the head is not `]`. -/
theorem c9_rb_skip {l : List Char} (h : ∀ c, l.head? = some c → ¬c = ']') :
    TextNormalizer.matchOptRBracket l = ([], l) := by
  cases l with
  | nil => rfl
  | cons c r => simp [TextNormalizer.matchOptRBracket, h c rfl]

/-- A clean context character starts no timestamp match. -/
theorem c9_tryTs_clean {c : Char} (hc : cleanCtxChar c = true) (l : List Char) :
    TextNormalizer.tryTs (c :: l) = none := by
  obtain ⟨_, _, _, h4, _, _, _, h8, _, _, _⟩ := c9_clean_facts hc
  have hb1 : TextNormalizer.matchOptLBracket (c :: l) = ([], c :: l) :=
    c9_optL_skip (by intro c' h'; simp at h'; subst h'; exact h4)
  have hhc : TextNormalizer.matchHourColon (c :: l) = none := by
    simp [TextNormalizer.matchHourColon, h8]
  simp only [TextNormalizer.tryTs, hb1, hhc]

/-- A digit starts no `\[?` consumption. -/
theorem c9_optL_skip_dig {d : Char} (hd : isDig d = true) (l : List Char) :
    TextNormalizer.matchOptLBracket (d :: l) = ([], d :: l) :=
  c9_optL_skip (by intro c' h'; simp at h'; subst h'; exact (c9_dig_facts hd).1)

/-- The optional-seconds and optional-bracket tail of a token match. -/
theorem c9_tail_fact {z : List Char} (hz1 : ∀ c, z.head? = some c → ¬c = ':')
    (hz2 : ∀ c, z.head? = some c → ¬c = ']') (so : Option (Char × Char)) (bR : Bool)
    (hsd : ∀ s1 s2, so = some (s1, s2) → isDig s1 = true ∧ isDig s2 = true) :
    TextNormalizer.matchOptSecs
        ((match so with | some p => [':', p.1, p.2] | none => []) ++
         ((if bR then [']'] else []) ++ z)) =
      ((match so with | some p => [':', p.1, p.2] | none => []),
       (if bR then [']'] else []) ++ z) ∧
    TextNormalizer.matchOptRBracket ((if bR then [']'] else []) ++ z) =
      ((if bR then [']'] else []), z) := by
  rcases so with _ | ⟨s1, s2⟩ <;> cases bR
  · exact ⟨by simpa using c9_secs_skip hz1, by simpa using c9_rb_skip hz2⟩
  · constructor
    · simpa using c9_secs_skip (fun c h' => by simp at h'; subst h'; decide)
    · simpa using c9_rb_take z
  · obtain ⟨hs1, hs2⟩ := hsd s1 s2 rfl
    exact ⟨by simpa using c9_secs_take hs1 hs2 z, by simpa using c9_rb_skip hz2⟩
  · obtain ⟨hs1, hs2⟩ := hsd s1 s2 rfl
    exact ⟨by simpa using c9_secs_take hs1 hs2 (']' :: z), by simpa using c9_rb_take z⟩

/-- The hour part (one or two digits and a colon) of a token match. -/
theorem c9_hour_fact {d1 : Char} (hd1 : isDig d1 = true) (d2o : Option Char)
    (hd2 : ∀ d, d2o = some d → isDig d = true) (r : List Char) :
    TextNormalizer.matchHourColon
        (([d1] ++ (match d2o with | some d => [d] | none => [])) ++ ':' :: r) =
      some ([d1] ++ (match d2o with | some d => [d] | none => []) ++ [':'], r) := by
  rcases d2o with _ | d
  · simpa using c9_hc1 hd1 r
  · simpa using c9_hc2 hd1 (hd2 d rfl) r

/-- Core of the timestamp match, over explicit list pieces, without a
leading bracket. -/
theorem c9_tryTs_core {d1 m1 m2 : Char} {dm sp bp z : List Char}
    (hd1 : isDig d1 = true) (hm1 : isDig m1 = true) (hm2 : isDig m2 = true)
    (hhc : TextNormalizer.matchHourColon
        (d1 :: (dm ++ ':' :: m1 :: m2 :: (sp ++ (bp ++ z)))) =
      some (d1 :: (dm ++ [':']), m1 :: m2 :: (sp ++ (bp ++ z))))
    (hss : TextNormalizer.matchOptSecs (sp ++ (bp ++ z)) = (sp, bp ++ z))
    (hbb : TextNormalizer.matchOptRBracket (bp ++ z) = (bp, z)) :
    TextNormalizer.tryTs (d1 :: (dm ++ ':' :: m1 :: m2 :: (sp ++ (bp ++ z)))) =
      some (d1 :: (dm ++ ':' :: m1 :: m2 :: (sp ++ bp)),
        ((d1 :: (dm ++ [':'])) ++ [m1, m2] ++ sp, z)) := by
  have hmm' := c9_mm hm1 hm2 (sp ++ (bp ++ z))
  simp only [TextNormalizer.tryTs, c9_optL_skip_dig hd1, hhc, hmm', hss, hbb]
  simp [List.append_assoc]

/-- Core of the timestamp match with a leading bracket. -/
theorem c9_tryTs_coreB {d1 m1 m2 : Char} {dm sp bp z : List Char}
    (_hd1 : isDig d1 = true) (hm1 : isDig m1 = true) (hm2 : isDig m2 = true)
    (hhc : TextNormalizer.matchHourColon
        (d1 :: (dm ++ ':' :: m1 :: m2 :: (sp ++ (bp ++ z)))) =
      some (d1 :: (dm ++ [':']), m1 :: m2 :: (sp ++ (bp ++ z))))
    (hss : TextNormalizer.matchOptSecs (sp ++ (bp ++ z)) = (sp, bp ++ z))
    (hbb : TextNormalizer.matchOptRBracket (bp ++ z) = (bp, z)) :
    TextNormalizer.tryTs ('[' :: d1 :: (dm ++ ':' :: m1 :: m2 :: (sp ++ (bp ++ z)))) =
      some ('[' :: d1 :: (dm ++ ':' :: m1 :: m2 :: (sp ++ bp)),
        ((d1 :: (dm ++ [':'])) ++ [m1, m2] ++ sp, z)) := by
  have hmm' := c9_mm hm1 hm2 (sp ++ (bp ++ z))
  have hb1 := c9_optL_take (d1 :: (dm ++ ':' :: m1 :: m2 :: (sp ++ (bp ++ z))))
  simp only [TextNormalizer.tryTs, hb1, hhc, hmm', hss, hbb]
  simp [List.append_assoc]

/-- At the start of a well-formed timestamp token followed by clean text,
the timestamp regex matches exactly the token and leaves exactly the
following text. -/
theorem c9_tryTs_render {t : TsTok} (ht : t.WF) {z : List Char}
    (hz : ∀ c, z.head? = some c → cleanCtxChar c = true) :
    ∃ g, TextNormalizer.tryTs (t.render ++ z) = some (t.render, (g, z)) := by
  rcases t with ⟨bL, d1, d2o, m1, m2, so, bR⟩
  obtain ⟨hd1, hd2, hm1, hm2, hs⟩ := ht
  simp only at hd1 hd2 hm1 hm2 hs
  have hz1 : ∀ c, z.head? = some c → ¬c = ':' :=
    fun c h' => (c9_clean_facts (hz c h')).2.2.2.2.1
  have hz2 : ∀ c, z.head? = some c → ¬c = ']' :=
    fun c h' => (c9_clean_facts (hz c h')).2.2.2.2.2.1
  have hbb : TextNormalizer.matchOptRBracket ((if bR then [']'] else []) ++ z) =
      ((if bR then [']'] else []), z) := by
    cases bR
    · simpa using c9_rb_skip hz2
    · simpa using c9_rb_take z
  rcases d2o with _ | d <;> rcases so with _ | ⟨s1, s2⟩
  · have hss : TextNormalizer.matchOptSecs (([] : List Char) ++ ((if bR then [']'] else []) ++ z)) =
        ([], (if bR then [']'] else []) ++ z) := by
      cases bR
      · simpa using c9_secs_skip hz1
      · simpa using c9_secs_skip (fun c h' => by simp at h'; subst h'; decide)
    have hhc : TextNormalizer.matchHourColon
        (d1 :: (([] : List Char) ++ ':' :: m1 :: m2 :: (([] : List Char) ++ ((if bR then [']'] else []) ++ z)))) =
        some (d1 :: (([] : List Char) ++ [':']), m1 :: m2 :: (([] : List Char) ++ ((if bR then [']'] else []) ++ z))) := by
      simpa using c9_hc1 hd1 (m1 :: m2 :: ((if bR then [']'] else []) ++ z))
    cases bL
    · refine ⟨(d1 :: (([] : List Char) ++ [':'])) ++ [m1, m2] ++ ([] : List Char), ?_⟩
      have hnorm : TsTok.render ⟨false, d1, none, m1, m2, none, bR⟩ ++ z =
          d1 :: (([] : List Char) ++ ':' :: m1 :: m2 :: (([] : List Char) ++ ((if bR then [']'] else []) ++ z))) := by
        simp [TsTok.render, List.append_assoc]
      have hnorm2 : TsTok.render ⟨false, d1, none, m1, m2, none, bR⟩ =
          d1 :: (([] : List Char) ++ ':' :: m1 :: m2 :: (([] : List Char) ++ (if bR then [']'] else []))) := by
        simp [TsTok.render, List.append_assoc]
      rw [hnorm, hnorm2]
      exact c9_tryTs_core hd1 hm1 hm2 hhc hss hbb
    · refine ⟨(d1 :: (([] : List Char) ++ [':'])) ++ [m1, m2] ++ ([] : List Char), ?_⟩
      have hnorm : TsTok.render ⟨true, d1, none, m1, m2, none, bR⟩ ++ z =
          '[' :: d1 :: (([] : List Char) ++ ':' :: m1 :: m2 :: (([] : List Char) ++ ((if bR then [']'] else []) ++ z))) := by
        simp [TsTok.render, List.append_assoc]
      have hnorm2 : TsTok.render ⟨true, d1, none, m1, m2, none, bR⟩ =
          '[' :: d1 :: (([] : List Char) ++ ':' :: m1 :: m2 :: (([] : List Char) ++ (if bR then [']'] else []))) := by
        simp [TsTok.render, List.append_assoc]
      rw [hnorm, hnorm2]
      exact c9_tryTs_coreB hd1 hm1 hm2 hhc hss hbb
  · obtain ⟨hs1, hs2⟩ := hs s1 s2 rfl
    have hss : TextNormalizer.matchOptSecs
        ([':', s1, s2] ++ ((if bR then [']'] else []) ++ z)) =
        ([':', s1, s2], (if bR then [']'] else []) ++ z) := by
      simpa using c9_secs_take hs1 hs2 ((if bR then [']'] else []) ++ z)
    have hhc : TextNormalizer.matchHourColon
        (d1 :: (([] : List Char) ++ ':' :: m1 :: m2 :: ([':', s1, s2] ++ ((if bR then [']'] else []) ++ z)))) =
        some (d1 :: (([] : List Char) ++ [':']), m1 :: m2 :: ([':', s1, s2] ++ ((if bR then [']'] else []) ++ z))) := by
      simpa using c9_hc1 hd1 (m1 :: m2 :: (':' :: s1 :: s2 :: ((if bR then [']'] else []) ++ z)))
    cases bL
    · refine ⟨(d1 :: (([] : List Char) ++ [':'])) ++ [m1, m2] ++ [':', s1, s2], ?_⟩
      have hnorm : TsTok.render ⟨false, d1, none, m1, m2, some (s1, s2), bR⟩ ++ z =
          d1 :: (([] : List Char) ++ ':' :: m1 :: m2 :: ([':', s1, s2] ++ ((if bR then [']'] else []) ++ z))) := by
        simp [TsTok.render, List.append_assoc]
      have hnorm2 : TsTok.render ⟨false, d1, none, m1, m2, some (s1, s2), bR⟩ =
          d1 :: (([] : List Char) ++ ':' :: m1 :: m2 :: ([':', s1, s2] ++ (if bR then [']'] else []))) := by
        simp [TsTok.render, List.append_assoc]
      rw [hnorm, hnorm2]
      exact c9_tryTs_core hd1 hm1 hm2 hhc hss hbb
    · refine ⟨(d1 :: (([] : List Char) ++ [':'])) ++ [m1, m2] ++ [':', s1, s2], ?_⟩
      have hnorm : TsTok.render ⟨true, d1, none, m1, m2, some (s1, s2), bR⟩ ++ z =
          '[' :: d1 :: (([] : List Char) ++ ':' :: m1 :: m2 :: ([':', s1, s2] ++ ((if bR then [']'] else []) ++ z))) := by
        simp [TsTok.render, List.append_assoc]
      have hnorm2 : TsTok.render ⟨true, d1, none, m1, m2, some (s1, s2), bR⟩ =
          '[' :: d1 :: (([] : List Char) ++ ':' :: m1 :: m2 :: ([':', s1, s2] ++ (if bR then [']'] else []))) := by
        simp [TsTok.render, List.append_assoc]
      rw [hnorm, hnorm2]
      exact c9_tryTs_coreB hd1 hm1 hm2 hhc hss hbb
  · have hss : TextNormalizer.matchOptSecs (([] : List Char) ++ ((if bR then [']'] else []) ++ z)) =
        ([], (if bR then [']'] else []) ++ z) := by
      cases bR
      · simpa using c9_secs_skip hz1
      · simpa using c9_secs_skip (fun c h' => by simp at h'; subst h'; decide)
    have hhc : TextNormalizer.matchHourColon
        (d1 :: ([d] ++ ':' :: m1 :: m2 :: (([] : List Char) ++ ((if bR then [']'] else []) ++ z)))) =
        some (d1 :: ([d] ++ [':']), m1 :: m2 :: (([] : List Char) ++ ((if bR then [']'] else []) ++ z))) := by
      simpa using c9_hc2 hd1 (hd2 d rfl) (m1 :: m2 :: ((if bR then [']'] else []) ++ z))
    cases bL
    · refine ⟨(d1 :: ([d] ++ [':'])) ++ [m1, m2] ++ ([] : List Char), ?_⟩
      have hnorm : TsTok.render ⟨false, d1, some d, m1, m2, none, bR⟩ ++ z =
          d1 :: ([d] ++ ':' :: m1 :: m2 :: (([] : List Char) ++ ((if bR then [']'] else []) ++ z))) := by
        simp [TsTok.render, List.append_assoc]
      have hnorm2 : TsTok.render ⟨false, d1, some d, m1, m2, none, bR⟩ =
          d1 :: ([d] ++ ':' :: m1 :: m2 :: (([] : List Char) ++ (if bR then [']'] else []))) := by
        simp [TsTok.render, List.append_assoc]
      rw [hnorm, hnorm2]
      exact c9_tryTs_core hd1 hm1 hm2 hhc hss hbb
    · refine ⟨(d1 :: ([d] ++ [':'])) ++ [m1, m2] ++ ([] : List Char), ?_⟩
      have hnorm : TsTok.render ⟨true, d1, some d, m1, m2, none, bR⟩ ++ z =
          '[' :: d1 :: ([d] ++ ':' :: m1 :: m2 :: (([] : List Char) ++ ((if bR then [']'] else []) ++ z))) := by
        simp [TsTok.render, List.append_assoc]
      have hnorm2 : TsTok.render ⟨true, d1, some d, m1, m2, none, bR⟩ =
          '[' :: d1 :: ([d] ++ ':' :: m1 :: m2 :: (([] : List Char) ++ (if bR then [']'] else []))) := by
        simp [TsTok.render, List.append_assoc]
      rw [hnorm, hnorm2]
      exact c9_tryTs_coreB hd1 hm1 hm2 hhc hss hbb
  · obtain ⟨hs1, hs2⟩ := hs s1 s2 rfl
    have hss : TextNormalizer.matchOptSecs
        ([':', s1, s2] ++ ((if bR then [']'] else []) ++ z)) =
        ([':', s1, s2], (if bR then [']'] else []) ++ z) := by
      simpa using c9_secs_take hs1 hs2 ((if bR then [']'] else []) ++ z)
    have hhc : TextNormalizer.matchHourColon
        (d1 :: ([d] ++ ':' :: m1 :: m2 :: ([':', s1, s2] ++ ((if bR then [']'] else []) ++ z)))) =
        some (d1 :: ([d] ++ [':']), m1 :: m2 :: ([':', s1, s2] ++ ((if bR then [']'] else []) ++ z))) := by
      simpa using c9_hc2 hd1 (hd2 d rfl) (m1 :: m2 :: (':' :: s1 :: s2 :: ((if bR then [']'] else []) ++ z)))
    cases bL
    · refine ⟨(d1 :: ([d] ++ [':'])) ++ [m1, m2] ++ [':', s1, s2], ?_⟩
      have hnorm : TsTok.render ⟨false, d1, some d, m1, m2, some (s1, s2), bR⟩ ++ z =
          d1 :: ([d] ++ ':' :: m1 :: m2 :: ([':', s1, s2] ++ ((if bR then [']'] else []) ++ z))) := by
        simp [TsTok.render, List.append_assoc]
      have hnorm2 : TsTok.render ⟨false, d1, some d, m1, m2, some (s1, s2), bR⟩ =
          d1 :: ([d] ++ ':' :: m1 :: m2 :: ([':', s1, s2] ++ (if bR then [']'] else []))) := by
        simp [TsTok.render, List.append_assoc]
      rw [hnorm, hnorm2]
      exact c9_tryTs_core hd1 hm1 hm2 hhc hss hbb
    · refine ⟨(d1 :: ([d] ++ [':'])) ++ [m1, m2] ++ [':', s1, s2], ?_⟩
      have hnorm : TsTok.render ⟨true, d1, some d, m1, m2, some (s1, s2), bR⟩ ++ z =
          '[' :: d1 :: ([d] ++ ':' :: m1 :: m2 :: ([':', s1, s2] ++ ((if bR then [']'] else []) ++ z))) := by
        simp [TsTok.render, List.append_assoc]
      have hnorm2 : TsTok.render ⟨true, d1, some d, m1, m2, some (s1, s2), bR⟩ =
          '[' :: d1 :: ([d] ++ ':' :: m1 :: m2 :: ([':', s1, s2] ++ (if bR then [']'] else []))) := by
        simp [TsTok.render, List.append_assoc]
      rw [hnorm, hnorm2]
      exact c9_tryTs_coreB hd1 hm1 hm2 hhc hss hbb

/-- The protect scan of the empty text. -/
theorem c9_protectAux_nil (fuel ctr : Nat) :
    TextNormalizer.protectAux fuel ctr [] = ([], []) := by
  cases fuel <;> rfl

/-- The protect scan walks over a clean prefix unchanged, consuming one
fuel per character. -/
theorem c9_protectAux_clean_front :
    ∀ (x : List Char), (∀ c ∈ x, cleanCtxChar c = true) →
    ∀ fuel ctr r, TextNormalizer.protectAux (x.length + fuel) ctr (x ++ r) =
      (x ++ (TextNormalizer.protectAux fuel ctr r).1,
       (TextNormalizer.protectAux fuel ctr r).2) := by
  intro x
  induction x with
  | nil => intro _ fuel ctr r; simp
  | cons c x' ih =>
    intro hx fuel ctr r
    have hc : cleanCtxChar c = true := hx c (by simp)
    have hlen : (c :: x').length + fuel = (x'.length + fuel) + 1 := by
      simp [List.length_cons]; omega
    rw [List.cons_append, hlen]
    simp only [TextNormalizer.protectAux, c9_tryTs_clean hc]
    rw [ih (fun c' hc' => hx c' (List.mem_cons_of_mem _ hc'))]
    simp

/-- The full protect pass on clean text around one well-formed timestamp
token: the token is replaced by placeholder 0 and recorded, nothing else
changes. -/
theorem c9_protect_decomp {x y : List Char} {t : TsTok}
    (hx : ∀ c ∈ x, cleanCtxChar c = true) (hy : ∀ c ∈ y, cleanCtxChar c = true)
    (ht : t.WF) :
    TextNormalizer.protectTimestamps (x ++ t.render ++ y) =
      (x ++ TextNormalizer.placeholderFor 0 ++ y,
       [(TextNormalizer.placeholderFor 0, t.render)]) := by
  have hyhead : ∀ c, y.head? = some c → cleanCtxChar c = true := by
    intro c h'
    cases y with
    | nil => simp at h'
    | cons a l => simp at h'; subst h'; exact hy a (by simp)
  obtain ⟨g, hg⟩ := c9_tryTs_render ht hyhead
  rw [TextNormalizer.protectTimestamps]
  have hlen : (x ++ t.render ++ y).length = x.length + (t.render.length + y.length) := by
    simp [List.length_append]
  have hxr : x ++ t.render ++ y = x ++ (t.render ++ y) := by
    simp [List.append_assoc]
  rw [hlen, hxr]
  rw [c9_protectAux_clean_front x hx (t.render.length + y.length) 0 (t.render ++ y)]
  have hyy : ∀ F, F = y.length + (t.render.length - 1) →
      TextNormalizer.protectAux F 1 y = (y, []) := by
    intro F hF
    subst hF
    have h2 := c9_protectAux_clean_front y hy (t.render.length - 1) 1 []
    rw [List.append_nil, c9_protectAux_nil] at h2
    simpa using h2
  have hrne := c9_render_ne_nil t
  cases hr : t.render with
  | nil => exact absurd hr hrne
  | cons c rest =>
    rw [hr] at hg
    have hfuel : (c :: rest).length + y.length = (rest.length + y.length) + 1 := by
      simp [List.length_cons]; omega
    rw [hfuel]
    have hg2 : TextNormalizer.tryTs (c :: (rest ++ y)) = some (c :: rest, (g, y)) := by
      simpa using hg
    rw [List.cons_append]
    simp only [TextNormalizer.protectAux, hg2]
    rw [hyy (rest.length + y.length) (by simp [hr]; omega)]
    simp [List.append_assoc]

/-- CRLF replacement is the identity without carriage returns. -/
theorem c9_crlf_id : ∀ l : List Char, (∀ c ∈ l, ¬c = '\r') →
    TextNormalizer.crlfToLf l = l := by
  intro l
  induction l with
  | nil => intro _; rfl
  | cons c rest ih =>
    intro h
    rw [TextNormalizer.crlfToLf.eq_def]
    split
    · rename_i heq
      exact absurd heq (by simp)
    · rename_i heq
      injection heq with h1 _
      exact absurd h1 (h c (by simp))
    · rename_i heq
      injection heq with h1 h2
      subst h1
      subst h2
      rw [ih (fun c' hc' => h c' (List.mem_cons_of_mem _ hc'))]

/-- CR replacement is the identity without carriage returns. -/
theorem c9_cr_id (l : List Char) (h : ∀ c ∈ l, ¬c = '\r') :
    TextNormalizer.crToLf l = l := by
  rw [TextNormalizer.crToLf]
  have h2 : ∀ c ∈ l, (if c = '\r' then '\n' else c) = id c :=
    fun c hc => by simp [h c hc]
  rw [List.map_congr_left h2, List.map_id]

/-- BOM removal is the identity when the first character is not a BOM. -/
theorem c9_bom_id {l : List Char} (h : ∀ c, l.head? = some c → ¬c = '﻿') :
    TextNormalizer.removeBOM l = l := by
  rw [TextNormalizer.removeBOM.eq_def]
  split
  · rename_i rest
    exact absurd rfl (h '﻿' rfl)
  · rfl

/-- The NFC model is the identity without combining acutes. -/
theorem c9_nfc_id : ∀ l : List Char, (∀ c ∈ l, ¬c = '́') →
    TextNormalizer.nfcJS l = l := by
  intro l
  induction l with
  | nil => intro _; rfl
  | cons c rest ih =>
    intro h
    rw [TextNormalizer.nfcJS.eq_def]
    split
    · rename_i heq
      exact absurd heq (by simp)
    · rename_i heq
      injection heq with _ h2
      have hm : ('́' : Char) ∈ rest := by rw [h2]; exact List.mem_cons_self _ _
      exact absurd rfl (h _ (List.mem_cons_of_mem _ hm))
    · rename_i heq
      injection heq with h1 h2
      subst h1
      subst h2
      rw [ih (fun c' hc' => h c' (List.mem_cons_of_mem _ hc'))]

/-- The whitespace-collapse scanner distributes over an append whose right
part starts with a non-whitespace character. -/
theorem c9_nws_append : ∀ (x z : List Char),
    (∀ c, z.head? = some c → hwsChar c = false) → ∀ b,
    TextNormalizer.nwsAux b (x ++ z) =
      TextNormalizer.nwsAux b x ++ TextNormalizer.nwsAux false z := by
  intro x
  induction x with
  | nil =>
    intro z hz b
    cases z with
    | nil => rfl
    | cons c r =>
      simp only [List.nil_append, TextNormalizer.nwsAux, hz c rfl,
        Bool.false_eq_true, if_false]
  | cons c x' ih =>
    intro z hz b
    by_cases hc : hwsChar c = true
    · simp only [List.cons_append, TextNormalizer.nwsAux, hc, if_true,
        List.append_eq, ih z hz true]
      cases b <;> simp
    · have hc' : hwsChar c = false := by simpa using hc
      simp only [List.cons_append, TextNormalizer.nwsAux, hc',
        Bool.false_eq_true, if_false, List.append_eq, ih z hz false,
        List.cons_append]

/-- The whitespace-collapse scanner walks over a whitespace-free prefix
unchanged. -/
theorem c9_nws_inert : ∀ (p z : List Char), (∀ c ∈ p, hwsChar c = false) →
    TextNormalizer.nwsAux false (p ++ z) = p ++ TextNormalizer.nwsAux false z := by
  intro p
  induction p with
  | nil => intro z _; rfl
  | cons c p' ih =>
    intro z hp
    simp only [List.cons_append, TextNormalizer.nwsAux, hp c (by simp),
      Bool.false_eq_true, if_false, List.append_eq,
      ih z (fun c' hc' => hp c' (List.mem_cons_of_mem _ hc'))]

/-- Characters in the whitespace-collapse output come from the input or are
the space. -/
theorem c9_nws_mem : ∀ (l : List Char) (b : Bool) (c : Char),
    c ∈ TextNormalizer.nwsAux b l → c ∈ l ∨ c = ' ' := by
  intro l
  induction l with
  | nil => intro b c hc; simp [TextNormalizer.nwsAux] at hc
  | cons d rest ih =>
    intro b c hc
    by_cases hd : hwsChar d = true
    · rw [TextNormalizer.nwsAux, hd] at hc
      simp only [if_true] at hc
      cases b with
      | true =>
        rcases ih true c hc with h | h
        · exact Or.inl (List.mem_cons_of_mem _ h)
        · exact Or.inr h
      | false =>
        simp only [Bool.false_eq_true, if_false, List.mem_cons] at hc
        rcases hc with h | h
        · exact Or.inr h
        · rcases ih true c h with h2 | h2
          · exact Or.inl (List.mem_cons_of_mem _ h2)
          · exact Or.inr h2
    · have hd' : hwsChar d = false := by simpa using hd
      rw [TextNormalizer.nwsAux, hd'] at hc
      simp only [Bool.false_eq_true, if_false, List.mem_cons] at hc
      rcases hc with h | h
      · exact Or.inl (by simp [h])
      · rcases ih false c h with h2 | h2
        · exact Or.inl (List.mem_cons_of_mem _ h2)
        · exact Or.inr h2

/-- `dropWhile` distributes over an append whose right part starts with a
non-whitespace character. -/
theorem c9_dropWhile_append : ∀ (w z : List Char),
    (∀ c, z.head? = some c → jsWs c = false) →
    (w ++ z).dropWhile (fun c => jsWs c) = w.dropWhile (fun c => jsWs c) ++ z := by
  intro w
  induction w with
  | nil =>
    intro z hz
    cases z with
    | nil => rfl
    | cons c r => simp [List.dropWhile, hz c rfl]
  | cons c w' ih =>
    intro z hz
    by_cases hc : jsWs c = true
    · simp only [List.cons_append, List.dropWhile, hc, List.append_eq, ih z hz]
    · have hc' : jsWs c = false := by simpa using hc
      simp [List.cons_append, List.dropWhile, hc']

/-- The head of an append with non-empty left part lies in the left part. -/
theorem c9_head_append {u : List Char} (v : List Char) {c : Char}
    (hu : u ≠ []) (h : (u ++ v).head? = some c) : c ∈ u := by
  cases u with
  | nil => exact absurd rfl hu
  | cons a l =>
    simp only [List.cons_append, List.head?, Option.some.injEq] at h
    subst h
    simp

/-- `trim` around an inert (whitespace-free, non-empty) middle block. -/
theorem c9_trim_decomp {x p y : List Char} (hne : p ≠ [])
    (hp : ∀ c ∈ p, jsWs c = false) :
    trimJS (x ++ p ++ y) = trimStart x ++ p ++ trimEnd y := by
  have hpr : p.reverse ≠ [] := by simpa using hne
  have hz1 : ∀ c, ((x ++ p).reverse).head? = some c → jsWs c = false := by
    intro c hc
    rw [List.reverse_append] at hc
    exact hp c (List.mem_reverse.1 (c9_head_append x.reverse hpr hc))
  have hA : trimEnd (x ++ p ++ y) = (x ++ p) ++ trimEnd y := by
    unfold trimEnd
    rw [List.reverse_append,
      c9_dropWhile_append y.reverse (x ++ p).reverse hz1,
      List.reverse_append, List.reverse_reverse]
  have hz2 : ∀ c, (p ++ trimEnd y).head? = some c → jsWs c = false :=
    fun c hc => hp c (c9_head_append (trimEnd y) hne hc)
  unfold trimJS
  rw [hA, List.append_assoc]
  unfold trimStart
  rw [c9_dropWhile_append x (p ++ trimEnd y) hz2, ← List.append_assoc]

/-- Membership is preserved backwards through `trimStart`. -/
theorem c9_trimStart_mem : ∀ (l : List Char) (c : Char),
    c ∈ trimStart l → c ∈ l := by
  intro l
  induction l with
  | nil => intro c hc; simp [trimStart] at hc
  | cons d rest ih =>
    intro c hc
    unfold trimStart at hc
    by_cases hd : jsWs d = true
    · simp only [List.dropWhile_cons, hd, if_true] at hc
      exact List.mem_cons_of_mem _ (ih c hc)
    · have hd' : jsWs d = false := by simpa using hd
      simp only [List.dropWhile_cons, hd', Bool.false_eq_true, if_false] at hc
      exact hc

/-- Membership is preserved backwards through `trimEnd`. -/
theorem c9_trimEnd_mem {l : List Char} {c : Char} (h : c ∈ trimEnd l) :
    c ∈ l := by
  unfold trimEnd at h
  rw [List.mem_reverse] at h
  exact List.mem_reverse.1 (c9_trimStart_mem l.reverse c h)

/-- Splitting on newline is trivial for newline-free text. -/
theorem c9_splitNl_single : ∀ l : List Char, (∀ c ∈ l, ¬c = '\n') →
    splitOnChar '\n' l = [l] := by
  intro l
  induction l with
  | nil => intro _; rfl
  | cons c rest ih =>
    intro h
    have ih' := ih (fun c' hc' => h c' (List.mem_cons_of_mem _ hc'))
    simp [splitOnChar, h c (by simp), ih']

/-- `intercalate` of a single chunk. -/
theorem c9_intercalate_single (a : List Char) :
    List.intercalate ['\n'] [a] = a := by
  simp [List.intercalate]

/-- On newline-free text `trimLines` is a whole-string trim. -/
theorem c9_trimLines_nonl {l : List Char} (h : ∀ c ∈ l, ¬c = '\n') :
    TextNormalizer.trimLines l = trimJS l := by
  unfold TextNormalizer.trimLines
  rw [c9_splitNl_single l h]
  simp only [List.map]
  exact c9_intercalate_single (trimJS l)

/-- Blank-line collapsing is the identity on newline-free text. -/
theorem c9_cb_id (m : Nat) : ∀ l : List Char, (∀ c ∈ l, ¬c = '\n') →
    TextNormalizer.cbAux m 0 l = l := by
  intro l
  induction l with
  | nil => intro _; simp [TextNormalizer.cbAux]
  | cons c rest ih =>
    intro h
    have ih' := ih (fun c' hc' => h c' (List.mem_cons_of_mem _ hc'))
    simp [TextNormalizer.cbAux, h c (by simp), ih']

/-- A pattern is a prefix of itself followed by anything. -/
theorem c9_startsWith_refl : ∀ (p z : List Char),
    listStartsWith p (p ++ z) = true := by
  intro p
  induction p with
  | nil => intro z; rfl
  | cons a ps ih => intro z; simp [listStartsWith, ih]

/-- First-occurrence replacement at the head of the text. -/
theorem c9_replaceFirst_here (p0 : Char) (ps rep z : List Char) :
    replaceFirst (p0 :: ps) rep ((p0 :: ps) ++ z) = rep ++ z := by
  have h1 : listStartsWith (p0 :: ps) ((p0 :: ps) ++ z) = true :=
    c9_startsWith_refl (p0 :: ps) z
  simp only [List.cons_append] at h1
  simp only [List.cons_append, replaceFirst, List.append_eq, h1, if_true]
  simp [List.drop_succ_cons, List.drop_left]

/-- First-occurrence replacement lands on the pattern when the text to its
left cannot start a match (the pattern starts with an underscore and the
left part is underscore-free). -/
theorem c9_replaceFirst_decomp : ∀ (x : List Char), (∀ c ∈ x, ¬c = '_') →
    ∀ (ps rep y : List Char),
    replaceFirst ('_' :: ps) rep (x ++ ('_' :: ps) ++ y) = x ++ rep ++ y := by
  intro x
  induction x with
  | nil =>
    intro _ ps rep y
    simp only [List.nil_append]
    exact c9_replaceFirst_here '_' ps rep y
  | cons c x' ih =>
    intro h ps rep y
    have hc : ¬c = '_' := h c (by simp)
    have hbe : (('_' : Char) == c) = false := by
      cases hbe2 : (('_' : Char) == c)
      · rfl
      · exact absurd (eq_of_beq hbe2).symm hc
    have hsw : listStartsWith ('_' :: ps) (c :: (x' ++ ('_' :: ps) ++ y)) = false := by
      simp [listStartsWith, hbe]
    have ih' := ih (fun c' hc' => h c' (List.mem_cons_of_mem _ hc')) ps rep y
    simp only [List.cons_append, replaceFirst, List.append_eq]
    simp only [List.cons_append] at hsw
    rw [hsw]
    simp only [Bool.false_eq_true, if_false]
    simp only [List.cons_append] at ih' ⊢
    rw [ih']

/-- The empty pattern occurs in every text. -/
theorem c9_containsSub_nilpat : ∀ l : List Char, containsSub l [] = true := by
  intro l
  induction l with
  | nil => rfl
  | cons c rest ih => simp [containsSub, listStartsWith]

/-- A middle block occurs as a substring of any text containing it. -/
theorem c9_containsSub_parts : ∀ (a p b : List Char),
    containsSub (a ++ p ++ b) p = true := by
  intro a
  induction a with
  | nil =>
    intro p b
    cases p with
    | nil => simpa using c9_containsSub_nilpat b
    | cons p0 ps =>
      have h1 := c9_startsWith_refl (p0 :: ps) b
      simp only [List.cons_append] at h1
      simp only [List.nil_append, List.cons_append, containsSub, List.append_eq, h1,
        Bool.true_or]
  | cons a0 a' ih =>
    intro p b
    have ih' := ih p b
    simp only [List.cons_append, containsSub, List.append_eq]
    simp only [List.cons_append] at ih'
    rw [ih', Bool.or_true]

/-- C9 (amended): with the default configuration (preserveTimestamps on),
a recognizable timestamp token embedded in clean surrounding text
(lowercase letters and spaces) appears verbatim and unchanged in the output
of normalizeText, whatever whitespace collapsing, trimming and character
removal happens around it. -/
theorem C9_timestamp_preservation (x y : List Char) (t : TsTok)
    (hx : ∀ c ∈ x, cleanCtxChar c = true) (hy : ∀ c ∈ y, cleanCtxChar c = true)
    (ht : t.WF) :
    containsSub (TextNormalizer.normalizeText {} (x ++ t.render ++ y))
      t.render = true := by
  have hrc := c9_render_chars ht
  have hph : ∀ c ∈ TextNormalizer.placeholderFor 0,
      hwsChar c = false ∧ jsWs c = false ∧ ¬c = '\n' ∧ jsControl c = false ∧
      ¬c = '�' ∧ ¬c = '́' := by decide
  have hune : ¬(x ++ t.render ++ y = []) := by
    intro h
    rcases List.append_eq_nil.1 h with ⟨h1, _⟩
    rcases List.append_eq_nil.1 h1 with ⟨_, h2⟩
    exact c9_render_ne_nil t h2
  have hnr : ∀ c ∈ x ++ t.render ++ y, ¬c = '\r' := by
    intro c hc
    rcases List.mem_append.1 hc with h | h
    · rcases List.mem_append.1 h with h2 | h2
      · exact (c9_clean_facts (hx c h2)).1
      · exact (c9_ts_facts (hrc c h2)).1
    · exact (c9_clean_facts (hy c h)).1
  have e1 : TextNormalizer.normalizeLineEndings (x ++ t.render ++ y) =
      x ++ t.render ++ y := by
    unfold TextNormalizer.normalizeLineEndings
    rw [c9_crlf_id _ hnr, c9_cr_id _ hnr]
  have hbom : ∀ c, (x ++ t.render ++ y).head? = some c → ¬c = '﻿' := by
    intro c hc
    have hxr : x ++ t.render ≠ [] := fun h =>
      c9_render_ne_nil t (List.append_eq_nil.1 h).2
    rcases List.mem_append.1 (c9_head_append y hxr hc) with h | h
    · exact (c9_clean_facts (hx c h)).2.2.1
    · exact (c9_ts_facts (hrc c h)).2.2.2.2.2.2.2
  have e2 : TextNormalizer.removeBOM (x ++ t.render ++ y) = x ++ t.render ++ y :=
    c9_bom_id hbom
  have epm : TextNormalizer.protectTimestamps (x ++ t.render ++ y) =
      (x ++ TextNormalizer.placeholderFor 0 ++ y,
        [(TextNormalizer.placeholderFor 0, t.render)]) :=
    c9_protect_decomp hx hy ht
  have hmid : ∀ c ∈ x ++ TextNormalizer.placeholderFor 0 ++ y,
      ¬c = '́' ∧ jsControl c = false ∧ ¬c = '�' := by
    intro c hc
    rcases List.mem_append.1 hc with h | h
    · rcases List.mem_append.1 h with h2 | h2
      · have hf := c9_clean_facts (hx c h2)
        exact ⟨hf.2.2.2.2.2.2.2.2.2.2, hf.2.2.2.2.2.2.2.2.1,
          hf.2.2.2.2.2.2.2.2.2.1⟩
      · have hf := hph c h2
        exact ⟨hf.2.2.2.2.2, hf.2.2.2.1, hf.2.2.2.2.1⟩
    · have hf := c9_clean_facts (hy c h)
      exact ⟨hf.2.2.2.2.2.2.2.2.2.2, hf.2.2.2.2.2.2.2.2.1,
        hf.2.2.2.2.2.2.2.2.2.1⟩
  have e4 : TextNormalizer.nfcJS (x ++ TextNormalizer.placeholderFor 0 ++ y) =
      x ++ TextNormalizer.placeholderFor 0 ++ y :=
    c9_nfc_id _ (fun c hc => (hmid c hc).1)
  have e5 : TextNormalizer.removeControlCharacters
      (x ++ TextNormalizer.placeholderFor 0 ++ y) =
      x ++ TextNormalizer.placeholderFor 0 ++ y := by
    unfold TextNormalizer.removeControlCharacters
    exact List.filter_eq_self.mpr (fun a ha => by simp [(hmid a ha).2.1])
  have e6 : TextNormalizer.handleReplacementCharacter
      (x ++ TextNormalizer.placeholderFor 0 ++ y) =
      x ++ TextNormalizer.placeholderFor 0 ++ y := by
    unfold TextNormalizer.handleReplacementCharacter
    exact List.filter_eq_self.mpr (fun a ha => by simp [(hmid a ha).2.2])
  have hzph : ∀ c, (TextNormalizer.placeholderFor 0 ++ y).head? = some c →
      hwsChar c = false := by
    intro c hc
    exact (hph c (c9_head_append y (by decide) hc)).1
  have e7 : TextNormalizer.normalizeWhitespace
      (x ++ TextNormalizer.placeholderFor 0 ++ y) =
      TextNormalizer.nwsAux false x ++ TextNormalizer.placeholderFor 0 ++
        TextNormalizer.nwsAux false y := by
    unfold TextNormalizer.normalizeWhitespace
    rw [List.append_assoc, c9_nws_append x _ hzph false,
      c9_nws_inert (TextNormalizer.placeholderFor 0) y (fun c hc => (hph c hc).1),
      ← List.append_assoc]
  have hX1 : ∀ c ∈ TextNormalizer.nwsAux false x, cleanCtxChar c = true := by
    intro c hc
    rcases c9_nws_mem x false c hc with h | h
    · exact hx c h
    · subst h; decide
  have hY1 : ∀ c ∈ TextNormalizer.nwsAux false y, cleanCtxChar c = true := by
    intro c hc
    rcases c9_nws_mem y false c hc with h | h
    · exact hy c h
    · subst h; decide
  have hn1 : ∀ c ∈ TextNormalizer.nwsAux false x ++ TextNormalizer.placeholderFor 0 ++
      TextNormalizer.nwsAux false y, ¬c = '\n' := by
    intro c hc
    rcases List.mem_append.1 hc with h | h
    · rcases List.mem_append.1 h with h2 | h2
      · exact (c9_clean_facts (hX1 c h2)).2.1
      · exact (hph c h2).2.2.1
    · exact (c9_clean_facts (hY1 c h)).2.1
  have e8 : TextNormalizer.trimLines (TextNormalizer.nwsAux false x ++
      TextNormalizer.placeholderFor 0 ++ TextNormalizer.nwsAux false y) =
      trimStart (TextNormalizer.nwsAux false x) ++ TextNormalizer.placeholderFor 0 ++
        trimEnd (TextNormalizer.nwsAux false y) := by
    rw [c9_trimLines_nonl hn1]
    exact c9_trim_decomp (by decide) (fun c hc => (hph c hc).2.1)
  have hX2 : ∀ c ∈ trimStart (TextNormalizer.nwsAux false x), cleanCtxChar c = true :=
    fun c hc => hX1 c (c9_trimStart_mem _ c hc)
  have hY2 : ∀ c ∈ trimEnd (TextNormalizer.nwsAux false y), cleanCtxChar c = true :=
    fun c hc => hY1 c (c9_trimEnd_mem hc)
  have hn2 : ∀ c ∈ trimStart (TextNormalizer.nwsAux false x) ++
      TextNormalizer.placeholderFor 0 ++ trimEnd (TextNormalizer.nwsAux false y),
      ¬c = '\n' := by
    intro c hc
    rcases List.mem_append.1 hc with h | h
    · rcases List.mem_append.1 h with h2 | h2
      · exact (c9_clean_facts (hX2 c h2)).2.1
      · exact (hph c h2).2.2.1
    · exact (c9_clean_facts (hY2 c h)).2.1
  have e9 : TextNormalizer.collapseBlankLines 2
      (trimStart (TextNormalizer.nwsAux false x) ++ TextNormalizer.placeholderFor 0 ++
        trimEnd (TextNormalizer.nwsAux false y)) =
      trimStart (TextNormalizer.nwsAux false x) ++ TextNormalizer.placeholderFor 0 ++
        trimEnd (TextNormalizer.nwsAux false y) := by
    unfold TextNormalizer.collapseBlankLines
    exact c9_cb_id 3 _ hn2
  have e10 : TextNormalizer.restoreTimestamps
      (trimStart (TextNormalizer.nwsAux false x) ++ TextNormalizer.placeholderFor 0 ++
        trimEnd (TextNormalizer.nwsAux false y))
      [(TextNormalizer.placeholderFor 0, t.render)] =
      trimStart (TextNormalizer.nwsAux false x) ++ t.render ++
        trimEnd (TextNormalizer.nwsAux false y) := by
    show replaceFirst (TextNormalizer.placeholderFor 0) t.render
      (trimStart (TextNormalizer.nwsAux false x) ++ TextNormalizer.placeholderFor 0 ++
        trimEnd (TextNormalizer.nwsAux false y)) =
      trimStart (TextNormalizer.nwsAux false x) ++ t.render ++
        trimEnd (TextNormalizer.nwsAux false y)
    have hsplit : TextNormalizer.placeholderFor 0 = '_' :: ("_TIMESTAMP_0__").data := by
      decide
    rw [hsplit]
    exact c9_replaceFirst_decomp _
      (fun c hc => (c9_clean_facts (hX2 c hc)).2.2.2.2.2.2.1) _ t.render _
  have efin : trimJS (trimStart (TextNormalizer.nwsAux false x) ++ t.render ++
      trimEnd (TextNormalizer.nwsAux false y)) =
      trimStart (trimStart (TextNormalizer.nwsAux false x)) ++ t.render ++
        trimEnd (trimEnd (TextNormalizer.nwsAux false y)) :=
    c9_trim_decomp (c9_render_ne_nil t)
      (fun c hc => (c9_ts_facts (hrc c hc)).2.2.1)
  have hnorm : TextNormalizer.normalizeText {} (x ++ t.render ++ y) =
      trimStart (trimStart (TextNormalizer.nwsAux false x)) ++ t.render ++
        trimEnd (trimEnd (TextNormalizer.nwsAux false y)) := by
    unfold TextNormalizer.normalizeText
    rw [if_neg hune]
    simp only [if_true, e1, e2, epm, e4, e5, e6, e7, e8, e9, e10, efin]
  rw [hnorm]
  exact c9_containsSub_parts _ t.render _

/-- C9 witness: the token `[1:23]` inside `hello [1:23] world` survives
normalization verbatim. -/
theorem C9_timestamp_preservation_witness :
    containsSub
      (TextNormalizer.normalizeText {}
        (("hello ").data ++ TsTok.render ⟨true, '1', none, '2', '3', none, true⟩ ++
          (" world").data))
      (TsTok.render ⟨true, '1', none, '2', '3', none, true⟩) = true :=
  C9_timestamp_preservation ("hello ").data (" world").data
    ⟨true, '1', none, '2', '3', none, true⟩ (by decide) (by decide)
    (by
      refine ⟨by decide, ?_, by decide, by decide, ?_⟩
      · intro d h
        simp at h
      · intro s1 s2 h
        simp at h)

/-- C9 counterexample to the unrestricted claim: in the input
`__TIMESTAMP_0__ 1:22:33:44` the substring `33:44` matches the recognized
timestamp pattern, yet it does not appear in the normalized output: the
scan replaces the match `1:22:33` by the placeholder `__TIMESTAMP_0__`,
and restoration rewrites the FIRST occurrence of that placeholder, which
is the literal placeholder text the input already contained. -/
theorem C9_counterexample :
    containsSub
      (TextNormalizer.normalizeText {} (("__TIMESTAMP_0__ 1:22:33:44").data))
      (("33:44").data) = false := by decide
